import Mathlib

/-!
# cet-sdk: ordered module registry, lifecycle orchestration and event pipeline

A shallow embedding of `app/app.go` (module wiring, invariant wiring, route
registration, the ABCI lifecycle wrappers `BeginBlocker`, `DeliverTx`,
`EndBlocker`, `Commit`, `initChainer`), of the ordered basic-module registry
exercised by `types/ordered_basic_manager_test.go`, of the bankx genesis
functions (`modules/bankx/genesis.go`) and of `calculateIP` and
`assureTokenDistributionInGenesis` (`cmd/cetd/testnet.go`).

Stateful Go code is embedded by explicit state passing.  Collaborators that
live outside the repository (the cosmos-sdk `BaseApp` and `module.Manager`)
are parameters of the embedding: every theorem holds for all of them.
-/

namespace CetSdk

/-! ## Ordered basic-module registry (`types.OrderedBasicManager`) -/

/-- Byte strings (`[]byte`, `json.RawMessage`); `nil` is the empty list. -/
abbrev Bytes := List Nat

/-- Basic module (`module.AppModuleBasic`) as the registry sees it: its
`Name()`, its genesis validator (`none` is Go's `nil` error) and the effect on
the client-side wiring state `σ` of each of the three client hooks. -/
structure AppModuleBasic (σ : Type) where
  Name : String
  ValidateGenesis : Bytes → Option String
  RegisterRESTRoutes : σ → σ
  GetTxCmd : σ → σ
  GetQueryCmd : σ → σ

/-- Assignment `m[k] = v` on a Go map kept as an association list: an
existing entry for `k` is replaced. -/
def mapSet {β : Type} (m : List (String × β)) (k : String) (v : β) : List (String × β) :=
  (k, v) :: m.filter (fun p => p.1 != k)

/-- Name-keyed module map built by the basic manager:
`for _, b := range modules { moduleMap[b.Name()] = b }`. -/
def NewBasicManager {σ : Type} (modules : List (AppModuleBasic σ)) :
    List (String × AppModuleBasic σ) :=
  modules.foldl (fun m b => mapSet m b.Name b) []

/-- Modelled from the spec: the registry type of `ordered_basic_manager.go`
(absent from the sources; only its test is present).  It "stores modules keyed
by name" and "remembers original sequence order as the default iteration
order". -/
structure OrderedBasicManager (σ : Type) where
  BasicManager : List (String × AppModuleBasic σ)
  order : List String

/-- Modelled from the spec: `NewOrderedBasicManager` of
`ordered_basic_manager.go` (absent from the sources), the `register`
operation of the spec: store the modules keyed by name and remember the
sequence of the input. -/
def NewOrderedBasicManager {σ : Type} (modules : List (AppModuleBasic σ)) :
    OrderedBasicManager σ :=
  { BasicManager := NewBasicManager modules
    order := modules.map (fun b => b.Name) }

/-- Modelled from the spec: `for_each_in_default_order(visit)` of the
registry (absent from the sources): walk the remembered order, resolve each
name in the module map and visit the module found. -/
def forEachInDefaultOrder {σ : Type} (bm : OrderedBasicManager σ)
    (visit : AppModuleBasic σ → σ → σ) (s : σ) : σ :=
  bm.order.foldl
    (fun acc n =>
      match bm.BasicManager.lookup n with
      | some b => visit b acc
      | none => acc)
    s

/-- Modelled from the spec: `OrderedBasicManager.RegisterRESTRoutes` (absent
from the sources): the default-order traversal calling each module's
`RegisterRESTRoutes`. -/
def OrderedBasicManager.RegisterRESTRoutes {σ : Type} (bm : OrderedBasicManager σ) (s : σ) : σ :=
  forEachInDefaultOrder bm (fun b => b.RegisterRESTRoutes) s

/-- Modelled from the spec: `OrderedBasicManager.AddTxCommands` (absent from
the sources): the default-order traversal calling each module's `GetTxCmd`. -/
def OrderedBasicManager.AddTxCommands {σ : Type} (bm : OrderedBasicManager σ) (s : σ) : σ :=
  forEachInDefaultOrder bm (fun b => b.GetTxCmd) s

/-- Modelled from the spec: `OrderedBasicManager.AddQueryCommands` (absent
from the sources): the default-order traversal calling each module's
`GetQueryCmd`. -/
def OrderedBasicManager.AddQueryCommands {σ : Type} (bm : OrderedBasicManager σ) (s : σ) : σ :=
  forEachInDefaultOrder bm (fun b => b.GetQueryCmd) s

/-- The three order strings of `TestOrders`, shared by all mock modules. -/
structure MockOrders where
  restRoutesOrder : String
  txCmdsOrder : String
  queryCmdsOrder : String
  deriving DecidableEq, Repr

/-- The `mockModuleBasic` of `ordered_basic_manager_test.go`: each hook
appends the module's name to the matching order string; genesis validation
returns `nil`. -/
def mockModuleBasic (name : String) : AppModuleBasic MockOrders :=
  { Name := name
    ValidateGenesis := fun _ => none
    RegisterRESTRoutes := fun t => { t with restRoutesOrder := t.restRoutesOrder ++ name }
    GetTxCmd := fun t => { t with txCmdsOrder := t.txCmdsOrder ++ name }
    GetQueryCmd := fun t => { t with queryCmdsOrder := t.queryCmdsOrder ++ name } }

/-! ## Module manager wiring (`CetChainApp.InitModules`) -/

/-- Go packages whose `ModuleName` constant and `NewAppModule` constructor
`InitModules` uses. -/
inductive Pkg where
  | genaccounts | auth | authx | bank | bankx | crisis | incentive | supply | distr
  | distributionx | gov | slashing | staking | stakingx | asset | market | bancorlite
  | genutil
  deriving DecidableEq, Repr

/-- Constants of the module packages, which are declared outside the sources
at hand: the `ModuleName` of each package and the routes its application
module reports. -/
structure Wiring where
  ModuleName : Pkg → String
  Route : Pkg → String
  QuerierRoute : Pkg → String

/-- Application module (`module.AppModule`) as the manager and the routers
see it. -/
structure AppModule where
  Name : String
  Route : String
  QuerierRoute : String
  deriving DecidableEq, Repr

/-- The application module `pkg.NewAppModule(...)` of a package: `Name()`
returns the package's `ModuleName`. -/
def NewAppModule (w : Wiring) (p : Pkg) : AppModule :=
  { Name := w.ModuleName p, Route := w.Route p, QuerierRoute := w.QuerierRoute p }

/-- The cosmos-sdk `module.Manager`: the name-keyed module map and the four
phase orders. -/
structure Manager where
  Modules : List (String × AppModule)
  OrderInitGenesis : List String
  OrderExportGenesis : List String
  OrderBeginBlockers : List String
  OrderEndBlockers : List String
  deriving DecidableEq, Repr

/-- The cosmos-sdk `module.NewManager(modules...)`: the module map keyed by
name, every phase order initialised to the names in argument order. -/
def NewManager (modules : List AppModule) : Manager :=
  let moduleMap := modules.foldl (fun m b => mapSet m b.Name b) []
  let modulesStr := modules.map (fun b => b.Name)
  { Modules := moduleMap
    OrderInitGenesis := modulesStr
    OrderExportGenesis := modulesStr
    OrderBeginBlockers := modulesStr
    OrderEndBlockers := modulesStr }

/-- `Manager.SetOrderInitGenesis`. -/
def Manager.SetOrderInitGenesis (m : Manager) (moduleNames : List String) : Manager :=
  { m with OrderInitGenesis := moduleNames }

/-- `Manager.SetOrderExportGenesis`. -/
def Manager.SetOrderExportGenesis (m : Manager) (moduleNames : List String) : Manager :=
  { m with OrderExportGenesis := moduleNames }

/-- `Manager.SetOrderBeginBlockers`. -/
def Manager.SetOrderBeginBlockers (m : Manager) (moduleNames : List String) : Manager :=
  { m with OrderBeginBlockers := moduleNames }

/-- `Manager.SetOrderEndBlockers`. -/
def Manager.SetOrderEndBlockers (m : Manager) (moduleNames : List String) : Manager :=
  { m with OrderEndBlockers := moduleNames }

/-- The `modules` slice of `InitModules` (app.go lines 356-375): the modules
registered with the manager, in source order. -/
def InitModules.modules (w : Wiring) : List AppModule :=
  [ NewAppModule w .genaccounts,
    NewAppModule w .auth,
    NewAppModule w .authx,
    NewAppModule w .bank,
    NewAppModule w .bankx,
    NewAppModule w .crisis,
    NewAppModule w .incentive,
    NewAppModule w .supply,
    NewAppModule w .distr,
    NewAppModule w .distributionx,
    NewAppModule w .gov,
    NewAppModule w .slashing,
    NewAppModule w .staking,
    NewAppModule w .stakingx,
    NewAppModule w .asset,
    NewAppModule w .market,
    NewAppModule w .bancorlite,
    NewAppModule w .genutil ]

/-- The `initGenesisOrder` slice of `InitModules` (app.go lines 385-403). -/
def InitModules.initGenesisOrder (w : Wiring) : List String :=
  [ w.ModuleName .genaccounts,
    w.ModuleName .distr,
    w.ModuleName .staking,
    w.ModuleName .auth,
    w.ModuleName .bank,
    w.ModuleName .slashing,
    w.ModuleName .gov,
    w.ModuleName .supply,
    w.ModuleName .authx,
    w.ModuleName .bankx,
    w.ModuleName .incentive,
    w.ModuleName .stakingx,
    w.ModuleName .asset,
    w.ModuleName .market,
    w.ModuleName .bancorlite,
    w.ModuleName .crisis,
    w.ModuleName .genutil ]

/-- The module manager `app.mm` as `InitModules` leaves it (app.go lines
377-410): created from `modules`, then the four phase orders installed.  The
invariant registration and the router wiring that follow do not touch the
orders. -/
def InitModules (w : Wiring) : Manager :=
  let mm := NewManager (InitModules.modules w)
  let mm := mm.SetOrderBeginBlockers
    [w.ModuleName .market, w.ModuleName .incentive, w.ModuleName .distr, w.ModuleName .slashing]
  let mm := mm.SetOrderEndBlockers
    [w.ModuleName .gov, w.ModuleName .staking, w.ModuleName .authx, w.ModuleName .market,
     w.ModuleName .crisis]
  let initGenesisOrder := InitModules.initGenesisOrder w
  let mm := mm.SetOrderInitGenesis initGenesisOrder
  let exportGenesisOrder := initGenesisOrder
  mm.SetOrderExportGenesis exportGenesisOrder

/-- Names of the modules `InitModules` registers with the manager. -/
def InitModules.registeredNames (w : Wiring) : List String :=
  (InitModules.modules w).map (fun b => b.Name)

/-- Packages of the registered modules, in the order of the `modules` slice. -/
def InitModules.registeredPkgs : List Pkg :=
  [.genaccounts, .auth, .authx, .bank, .bankx, .crisis, .incentive, .supply, .distr,
   .distributionx, .gov, .slashing, .staking, .stakingx, .asset, .market, .bancorlite,
   .genutil]

/-- Packages named by `initGenesisOrder`, in its order. -/
def InitModules.initGenesisPkgs : List Pkg :=
  [.genaccounts, .distr, .staking, .auth, .bank, .slashing, .gov, .supply, .authx, .bankx,
   .incentive, .stakingx, .asset, .market, .bancorlite, .crisis, .genutil]

/-- A concrete wiring: the module names as the packages declare them (the
constants are outside the sources at hand; the theorems on the orders hold for
every naming that keeps the packages apart).  The phase orders do not depend on
the routes, which are left empty here. -/
def stdWiring : Wiring :=
  { ModuleName := fun p =>
      match p with
      | .genaccounts => "accounts"
      | .auth => "auth"
      | .authx => "authx"
      | .bank => "bank"
      | .bankx => "bankx"
      | .crisis => "crisis"
      | .incentive => "incentive"
      | .supply => "supply"
      | .distr => "distribution"
      | .distributionx => "distrx"
      | .gov => "gov"
      | .slashing => "slashing"
      | .staking => "staking"
      | .stakingx => "stakingx"
      | .asset => "asset"
      | .market => "market"
      | .bancorlite => "bancorlite"
      | .genutil => "genutil"
    Route := fun _ => ""
    QuerierRoute := fun _ => "" }

/-! ## Event pipeline and lifecycle wrappers (`app.go` lines 455-497) -/

/-- Attribute of an event (`common.KVPair`). -/
structure KVPair where
  Key : Bytes
  Value : Bytes
  deriving DecidableEq, Repr

/-- An `abci.Event`: a type and an ordered attribute list. -/
structure Event where
  Ty : String
  Attributes : List KVPair
  deriving DecidableEq, Repr

/-- The `PubMsg` queued for external publication: a key and a value. -/
structure PubMsg where
  Key : Bytes
  Value : Bytes
  deriving DecidableEq, Repr

/-- Modelled from the spec: the event type that tags an event, at emission
time, as belonging to the allow-listed, publish-only subset (the constant is
declared in `modules/msgqueue`, absent from the sources). -/
def EventTypeMsgQueue : String := "msgqueue"

/-- Modelled from the spec: the allow-list test on an event (declared with
the absent helpers `FilterMsgsOnlyKafka` and `RemoveMsgsOnlyKafka`). -/
def Event.onlyKafka (e : Event) : Bool := e.Ty == EventTypeMsgQueue

/-- Modelled from the spec: the one `PubMsg` an allow-listed event is
converted to (absent helper code): the key and value the event carries as its
leading attribute. -/
def Event.toPubMsg (e : Event) : PubMsg :=
  match e.Attributes with
  | a :: _ => { Key := a.Key, Value := a.Value }
  | [] => { Key := [], Value := [] }

/-- Modelled from the spec: `FilterMsgsOnlyKafka` (absent from the sources).
It walks the events in order; an allow-listed event is queued on the
publication buffer `PubMsgs`, any other event is kept for the response.
Returns the kept events and the new buffer. -/
def FilterMsgsOnlyKafka (events : List Event) (PubMsgs : List PubMsg) :
    List Event × List PubMsg :=
  events.foldl
    (fun acc event =>
      if event.onlyKafka then (acc.1, acc.2 ++ [event.toPubMsg])
      else (acc.1 ++ [event], acc.2))
    ([], PubMsgs)

/-- Modelled from the spec: `RemoveMsgsOnlyKafka` (absent from the sources).
It walks the events in order and strips the allow-listed ones; the buffer is
not touched. -/
def RemoveMsgsOnlyKafka (events : List Event) : List Event :=
  events.foldl (fun acc event => if event.onlyKafka then acc else acc ++ [event]) []

/-- Request of `DeliverTx`. -/
structure RequestDeliverTx where
  Tx : Bytes
  deriving DecidableEq, Repr

/-- Response of `DeliverTx` (`abci.ResponseDeliverTx`). -/
structure ResponseDeliverTx where
  Code : Nat
  Data : Bytes
  Log : String
  Info : String
  GasWanted : Int
  GasUsed : Int
  Events : List Event
  Codespace : String
  deriving DecidableEq, Repr

/-- Request of `BeginBlock`. -/
structure RequestBeginBlock where
  Hash : Bytes
  Height : Int
  deriving DecidableEq, Repr

/-- Response of `BeginBlock`. -/
structure ResponseBeginBlock where
  Events : List Event
  deriving DecidableEq, Repr

/-- Request of `EndBlock`. -/
structure RequestEndBlock where
  Height : Int
  deriving DecidableEq, Repr

/-- Response of `EndBlock`: validator updates (public key, power) and events. -/
structure ResponseEndBlock where
  ValidatorUpdates : List (Bytes × Int)
  Events : List Event
  deriving DecidableEq, Repr

/-- Response of `Commit`: the state digest. -/
structure ResponseCommit where
  Data : Bytes
  deriving DecidableEq, Repr

/-- Request of `InitChain`. -/
structure RequestInitChain where
  ChainId : String
  AppStateBytes : Bytes
  deriving DecidableEq, Repr

/-- Response of `InitChain`. -/
structure ResponseInitChain where
  Validators : List (Bytes × Int)
  deriving DecidableEq, Repr

/-- `sdk.CodeOK`. -/
def CodeOK : Nat := 0

/-- The collaborators the lifecycle wrappers call, which live in cosmos-sdk:
the embedded `BaseApp` and the module manager `app.mm`.  `σ` is the state they
own (the multistore and the rest of `BaseApp`). -/
structure Collaborators (σ : Type) where
  baseDeliverTx : σ → RequestDeliverTx → ResponseDeliverTx × σ
  baseCommit : σ → ResponseCommit × σ
  mmBeginBlock : σ → RequestBeginBlock → ResponseBeginBlock × σ
  mmEndBlock : σ → RequestEndBlock → ResponseEndBlock × σ

/-- State the wrappers run on: the `BaseApp` state, the package-level
publication buffer `PubMsgs`, and the log of `(key, value)` pairs handed so far
to the publish sink `msgQueProducer.SendMsg`. -/
structure World (σ : Type) where
  base : σ
  PubMsgs : List PubMsg
  sent : List (Bytes × Bytes)

/-- `CetChainApp.BeginBlocker` (app.go lines 455-460). -/
def BeginBlocker {σ : Type} (c : Collaborators σ) (w : World σ) (req : RequestBeginBlock) :
    ResponseBeginBlock × World σ :=
  let PubMsgs : List PubMsg := []
  let ret := c.mmBeginBlock w.base req
  let f := FilterMsgsOnlyKafka ret.1.Events PubMsgs
  ({ ret.1 with Events := f.1 }, { base := ret.2, PubMsgs := f.2, sent := w.sent })

/-- `CetChainApp.DeliverTx` (app.go lines 462-470). -/
def DeliverTx {σ : Type} (c : Collaborators σ) (w : World σ) (req : RequestDeliverTx) :
    ResponseDeliverTx × World σ :=
  let ret := c.baseDeliverTx w.base req
  if ret.1.Code = CodeOK then
    let f := FilterMsgsOnlyKafka ret.1.Events w.PubMsgs
    ({ ret.1 with Events := f.1 }, { base := ret.2, PubMsgs := f.2, sent := w.sent })
  else
    ({ ret.1 with Events := RemoveMsgsOnlyKafka ret.1.Events },
     { base := ret.2, PubMsgs := w.PubMsgs, sent := w.sent })

/-- `CetChainApp.EndBlocker` (app.go lines 474-478). -/
def EndBlocker {σ : Type} (c : Collaborators σ) (w : World σ) (req : RequestEndBlock) :
    ResponseEndBlock × World σ :=
  let ret := c.mmEndBlock w.base req
  let f := FilterMsgsOnlyKafka ret.1.Events w.PubMsgs
  ({ ret.1 with Events := f.1 }, { base := ret.2, PubMsgs := f.2, sent := w.sent })

/-- `CetChainApp.Commit` (app.go lines 480-485): every buffered message is
handed to the sink in buffer order, then `BaseApp.Commit` runs.  The buffer is
not assigned. -/
def Commit {σ : Type} (c : Collaborators σ) (w : World σ) : ResponseCommit × World σ :=
  let sent := w.PubMsgs.foldl (fun acc msg => acc ++ [(msg.Key, msg.Value)]) w.sent
  let ret := c.baseCommit w.base
  (ret.1, { base := ret.2, PubMsgs := w.PubMsgs, sent := sent })

/-- A sequence of `DeliverTx` calls, strictly sequential. -/
def DeliverTxs {σ : Type} (c : Collaborators σ) :
    World σ → List RequestDeliverTx → List ResponseDeliverTx × World σ
  | w, [] => ([], w)
  | w, req :: reqs =>
    let r := DeliverTx c w req
    let rs := DeliverTxs c r.2 reqs
    (r.1 :: rs.1, rs.2)

/-- One block of the lifecycle: `BeginBlock`, the `DeliverTx` calls, `EndBlock`,
then one `Commit`; the state after the commit. -/
def runBlock {σ : Type} (c : Collaborators σ) (w : World σ) (bb : RequestBeginBlock)
    (txs : List RequestDeliverTx) (eb : RequestEndBlock) : World σ :=
  let w1 := (BeginBlocker c w bb).2
  let w2 := (DeliverTxs c w1 txs).2
  let w3 := (EndBlocker c w2 eb).2
  (Commit c w3).2

/-- The `(key, value)` pairs of the allow-listed events of an event list, in
emission order, one per event. -/
def publishedOf (events : List Event) : List (Bytes × Bytes) :=
  (events.filter Event.onlyKafka).map (fun e => (e.toPubMsg.Key, e.toPubMsg.Value))

/-- The responses of the underlying `BaseApp.DeliverTx` to a sequence of
requests, and the `BaseApp` state after them. -/
def baseDeliverTxs {σ : Type} (c : Collaborators σ) :
    σ → List RequestDeliverTx → List ResponseDeliverTx × σ
  | s, [] => ([], s)
  | s, req :: reqs =>
    let r := c.baseDeliverTx s req
    let rs := baseDeliverTxs c r.2 reqs
    (r.1 :: rs.1, rs.2)

/-- What a block is expected to publish: the allow-listed events of the
begin-block response, then those of each transaction whose result code is 0, in
delivery order, then those of the end-block response. -/
def expectedPublication {σ : Type} (c : Collaborators σ) (s : σ) (bb : RequestBeginBlock)
    (txs : List RequestDeliverTx) (eb : RequestEndBlock) : List (Bytes × Bytes) :=
  let b := c.mmBeginBlock s bb
  let d := baseDeliverTxs c b.2 txs
  let e := c.mmEndBlock d.2 eb
  publishedOf b.1.Events
    ++ ((d.1.filter (fun r => r.Code = CodeOK)).map (fun r => publishedOf r.Events)).flatten
    ++ publishedOf e.1.Events

/-- The `(key, value)` pairs published for a list of `DeliverTx` responses:
those of the allow-listed events of each response whose code is 0. -/
def succPublished (rs : List ResponseDeliverTx) : List (Bytes × Bytes) :=
  ((rs.filter (fun r => r.Code = CodeOK)).map (fun r => publishedOf r.Events)).flatten

/-- A response with its allow-listed events taken out, everything else kept. -/
def stripOnlyKafka (r : ResponseDeliverTx) : ResponseDeliverTx :=
  { r with Events := r.Events.filter (fun e => !e.onlyKafka) }

/-- A small concrete set of collaborators used to evaluate the wrappers: the
state counts the calls; a transaction answers with its first byte as result
code and emits one allow-listed event carrying the transaction bytes followed
by one ordinary event. -/
def sampleCollaborators : Collaborators Nat :=
  { baseDeliverTx := fun s req =>
      ({ Code := req.Tx.headD 0, Data := [], Log := "", Info := "", GasWanted := 0,
         GasUsed := 0,
         Events := [{ Ty := EventTypeMsgQueue, Attributes := [{ Key := [7], Value := req.Tx }] },
                    { Ty := "transfer", Attributes := [] }],
         Codespace := "" }, s + 1)
    baseCommit := fun s => ({ Data := [] }, s + 1)
    mmBeginBlock := fun s _ => ({ Events := [] }, s + 1)
    mmEndBlock := fun s _ => ({ ValidatorUpdates := [], Events := [] }, s + 1) }

/-! ## Chain initialisation (`CetChainApp.initChainer`, app.go lines 488-497) -/

/-- Modelled from the spec: the validation pre-pass `ValidateGenesis` of the
basic manager (its code is absent from the sources): each module of the
manager validates its own payload `genesis[b.Name()]`, and the first error met
is returned (`none` is Go's `nil`).  `range` is the sequence in which the
entries of the module map are enumerated. -/
def ValidateGenesis {τ : Type} (range : List (String × AppModuleBasic τ))
    (genesis : String → Bytes) : Option String :=
  match range with
  | [] => none
  | (_, b) :: rest =>
    match b.ValidateGenesis (genesis b.Name) with
    | some err => some err
    | none => ValidateGenesis rest genesis

/-- `CetChainApp.initChainer` (app.go lines 488-497).  `MustUnmarshalJSON` is
the codec call decoding the app state into `map[string]json.RawMessage` (a
missing key reads as nil) and `mmInitGenesis` is `app.mm.InitGenesis` acting on
the stores `σ`; a panic is an `Except.error`, which leaves the stores as they
were.  `range` is the enumeration of the entries of `ModuleBasics` (Go leaves
the iteration order of a map open). -/
def initChainer {σ τ : Type}
    (MustUnmarshalJSON : Bytes → Except String (String → Bytes))
    (mmInitGenesis : σ → (String → Bytes) → Except String ResponseInitChain × σ)
    (range : List (String × AppModuleBasic τ))
    (ctx : σ) (req : RequestInitChain) : Except String ResponseInitChain × σ :=
  match MustUnmarshalJSON req.AppStateBytes with
  | .error e => (.error e, ctx)
  | .ok genesisState =>
    match ValidateGenesis range genesisState with
    | some err => (.error err, ctx)
    | none => mmInitGenesis ctx genesisState

/-- A basic module whose genesis validator rejects every payload. -/
def rejectingModuleBasic (name : String) (err : String) : AppModuleBasic MockOrders :=
  { mockModuleBasic name with ValidateGenesis := fun _ => some err }

/-! ## Store effect of a transaction -/

/-- Two store namespaces, enough to tell a fee payment from a rollback: the
balance of the paying account and the balance of the fee collector. -/
structure FeeStores where
  account : Nat
  feeCollector : Nat
  deriving DecidableEq, Repr

/-- A `BaseApp` in the manner of the cosmos-sdk transaction runner, which is
outside the sources at hand: the ante handler moves a fee of 1 from the account
to the fee collector and its writes are kept; the messages then run on a
separate cache, which is written only when they succeed.  Here the messages
fail with the first byte of the transaction as result code (0 is success) and
write nothing. -/
def feeChargingCollaborators : Collaborators FeeStores :=
  { baseDeliverTx := fun s req =>
      if s.account = 0 then
        ({ Code := 5, Data := [], Log := "insufficient funds", Info := "", GasWanted := 0,
           GasUsed := 0, Events := [], Codespace := "sdk" }, s)
      else
        ({ Code := req.Tx.headD 0, Data := [], Log := "", Info := "", GasWanted := 0,
           GasUsed := 0, Events := [], Codespace := "sdk" },
         { account := s.account - 1, feeCollector := s.feeCollector + 1 })
    baseCommit := fun s => ({ Data := [] }, s)
    mmBeginBlock := fun s _ => ({ Events := [] }, s)
    mmEndBlock := fun s _ => ({ ValidatorUpdates := [], Events := [] }, s) }

/-! ## Invariant wiring (`initKeepers`, `InitModules`, `replaceEmptyCrisisModule`) -/

/-- An invariant route held by the crisis keeper: the registering module's name
and the route. -/
structure InvarRoute where
  ModuleName : String
  Route : String
  deriving DecidableEq, Repr

/-- The cosmos-sdk `crisis.Keeper`, a value type: the registered invariant
routes and the check period. -/
structure CrisisKeeper where
  routes : List InvarRoute
  invCheckPeriod : Nat
  deriving DecidableEq, Repr

/-- The cosmos-sdk `crisis.NewKeeper`: no route yet, the period as given. -/
def crisis.NewKeeper (invCheckPeriod : Nat) : CrisisKeeper :=
  { routes := [], invCheckPeriod := invCheckPeriod }

/-- The cosmos-sdk `Keeper.RegisterRoute`: the route is appended. -/
def CrisisKeeper.RegisterRoute (k : CrisisKeeper) (moduleName route : String) : CrisisKeeper :=
  { k with routes := k.routes ++ [{ ModuleName := moduleName, Route := route }] }

/-- Application module with what the invariant wiring reads: its name, the
routes its `RegisterInvariants` registers, and, for a crisis module, the keeper
it holds.  `crisis.NewAppModule` takes the keeper by value, so the module holds
the keeper as it was when the module was created. -/
structure AppModuleInv where
  Name : String
  invariants : List InvarRoute
  crisisKeeper : Option CrisisKeeper
  deriving DecidableEq, Repr

/-- `crisis.NewAppModule(keeper)`: the module holds a copy of the keeper; the
crisis module registers no invariant of its own. -/
def crisis.NewAppModule (w : Wiring) (keeper : CrisisKeeper) : AppModuleInv :=
  { Name := w.ModuleName .crisis, invariants := [], crisisKeeper := some keeper }

/-- The part of the application the invariant wiring acts on: `app.crisisKeeper`,
the module map `app.mm.Modules`, the local `modules` slice of `InitModules` and
the end-block order of the manager. -/
structure InvariantApp where
  crisisKeeper : CrisisKeeper
  mmModules : List (String × AppModuleInv)
  modules : List AppModuleInv
  OrderEndBlockers : List String
  deriving DecidableEq, Repr

/-- The cosmos-sdk `Manager.RegisterInvariants(&keeper)`: every module of the
manager registers its routes with the keeper, which is passed by pointer.
`range` is the sequence in which the entries of the module map are enumerated. -/
def RegisterInvariants (range : List (String × AppModuleInv)) (keeper : CrisisKeeper) :
    CrisisKeeper :=
  range.foldl
    (fun k entry => entry.2.invariants.foldl (fun k r => k.RegisterRoute r.ModuleName r.Route) k)
    keeper

/-- `CetChainApp.replaceEmptyCrisisModule` (app.go lines 421-431): a crisis
module is created from the keeper as it is now and put into the module map and
into every slot of the slice whose module is named crisis. -/
def replaceEmptyCrisisModule (w : Wiring) (app : InvariantApp) : InvariantApp :=
  let crisisWithInvariants := crisis.NewAppModule w app.crisisKeeper
  { app with
    mmModules := mapSet app.mmModules (w.ModuleName .crisis) crisisWithInvariants
    modules := app.modules.map
      (fun module => if module.Name = w.ModuleName .crisis then crisisWithInvariants else module) }

/-- The module `InitModules` creates for a package, as the invariant wiring
sees it: the crisis module holds the keeper handed to `crisis.NewAppModule`,
any other module registers the routes `inv` gives for it. -/
def InitModules.invModule (w : Wiring) (inv : Pkg → List InvarRoute)
    (crisisKeeper : CrisisKeeper) (p : Pkg) : AppModuleInv :=
  if p = Pkg.crisis then crisis.NewAppModule w crisisKeeper
  else { Name := w.ModuleName p, invariants := inv p, crisisKeeper := none }

/-- The invariant wiring of `NewCetChainApp`: `initKeepers` creates the crisis
keeper with the period (app.go lines 276-281); `InitModules` creates the
modules, the crisis module from the keeper as it is then, and the manager
(lines 356-377), registers the authx route and the modules' routes with
`app.crisisKeeper` (lines 412-413) and replaces the crisis module (line 416).
`inv` gives the routes each module registers and `enum` the order in which
the module map is enumerated. -/
def InitModules.invariantWiring (w : Wiring) (inv : Pkg → List InvarRoute)
    (enum : List (String × AppModuleInv) → List (String × AppModuleInv))
    (invCheckPeriod : Nat) : InvariantApp :=
  let crisisKeeper := crisis.NewKeeper invCheckPeriod
  let modules : List AppModuleInv :=
    InitModules.registeredPkgs.map (InitModules.invModule w inv crisisKeeper)
  let mmModules := modules.foldl (fun m b => mapSet m b.Name b) []
  let crisisKeeper := crisisKeeper.RegisterRoute (w.ModuleName .authx) "pre-total-supply"
  let crisisKeeper := RegisterInvariants (enum mmModules) crisisKeeper
  replaceEmptyCrisisModule w
    { crisisKeeper := crisisKeeper
      mmModules := mmModules
      modules := modules
      OrderEndBlockers := (InitModules w).OrderEndBlockers }

/-- Modelled from the spec: the end-block hook of the crisis module (the
cosmos-sdk `crisis.EndBlocker`, not under the sources at hand).  "A
configurable period N (0 disables) controls how often, in blocks, the full set
runs": with period 0, or at a height that is not a multiple of the period, the
check is skipped (`none`); otherwise every route of the keeper is asserted
(`some routes`). -/
def crisis.EndBlocker (height : Nat) (k : CrisisKeeper) : Option (List InvarRoute) :=
  if k.invCheckPeriod = 0 ∨ height % k.invCheckPeriod ≠ 0 then none else some k.routes

/-- The invariant runs of one `Manager.EndBlock` at a height: the manager walks
its end-block order, resolves each name in the module map and runs the module's
end-block hook; a crisis module runs `crisis.EndBlocker` on the keeper it
holds.  One entry per run, listing the routes asserted. -/
def invariantRuns (app : InvariantApp) (height : Nat) : List (List InvarRoute) :=
  app.OrderEndBlockers.filterMap
    (fun moduleName =>
      match app.mmModules.lookup moduleName with
      | some module =>
        match module.crisisKeeper with
        | some k => crisis.EndBlocker height k
        | none => none
      | none => none)

/-- Routes registered by the modules in a sample deployment: staking and bank
register one route each. -/
def sampleInvariants : Pkg → List InvarRoute
  | .staking => [{ ModuleName := "staking", Route := "module-accounts" }]
  | .bank => [{ ModuleName := "bank", Route := "nonnegative-outstanding" }]
  | _ => []

/-! ## Route registration (`registerRoutesWithOrder`, app.go lines 433-442) -/

/-- `registerRoutesWithOrder`.  The router and the query router are the
interfaces `sdk.Router` and `sdk.QueryRouter`; their `AddRoute` methods are the
parameters `routerAddRoute` and `queryAddRoute`, which receive the path and the
module whose handler is registered. -/
def registerRoutesWithOrder {ρ κ : Type} (routerAddRoute : ρ → String → AppModule → ρ)
    (queryAddRoute : κ → String → AppModule → κ) (modules : List AppModule)
    (router : ρ) (queryRouter : κ) : ρ × κ :=
  modules.foldl
    (fun acc module =>
      let r := if module.Route ≠ "" then routerAddRoute acc.1 module.Route module else acc.1
      let q :=
        if module.QuerierRoute ≠ "" then queryAddRoute acc.2 module.QuerierRoute module
        else acc.2
      (r, q))
    (router, queryRouter)

/-- A router that records the `AddRoute` calls it receives: the path and the
name of the module whose handler is added. -/
def recordAddRoute (calls : List (String × String)) (path : String) (module : AppModule) :
    List (String × String) :=
  calls ++ [(path, module.Name)]

/-- The modules whose begin-block hook `Manager.BeginBlock` runs, in the order
it runs them: the manager walks `OrderBeginBlockers` and resolves each name in
the module map. -/
def Manager.beginBlockRuns (m : Manager) : List AppModule :=
  m.OrderBeginBlockers.filterMap (fun moduleName => m.Modules.lookup moduleName)

/-! ## bankx genesis (`modules/bankx/genesis.go`) -/

namespace bankx

/-- The `types.Params` of bankx.  The type is declared outside the sources at
hand: the two fees `genesis.go` reads are `int64` fields, whatever else the
type holds is `rest`. -/
structure Params (ε : Type) where
  ActivationFee : Int
  LockCoinsFee : Int
  rest : ε

/-- `GenesisState`: all bankx state that must be provided at genesis. -/
structure GenesisState (ε : Type) where
  Param : Params ε

/-- `NewGenesisState`. -/
def NewGenesisState {ε : Type} (param : Params ε) : GenesisState ε :=
  { Param := param }

/-- What `genesis.go` uses of the bankx `Keeper`, which is declared outside the
sources at hand: `SetParam` writes to the store behind the context `σ`,
`GetParam` reads from it. -/
structure Keeper (σ ε : Type) where
  SetParam : σ → Params ε → σ
  GetParam : σ → Params ε

/-- `InitGenesis`: init store state from genesis data. -/
def InitGenesis {σ ε : Type} (ctx : σ) (keeper : Keeper σ ε) (data : GenesisState ε) : σ :=
  keeper.SetParam ctx data.Param

/-- `ExportGenesis`: the genesis state for a context and keeper. -/
def ExportGenesis {σ ε : Type} (ctx : σ) (keeper : Keeper σ ε) : GenesisState ε :=
  let params := keeper.GetParam ctx
  NewGenesisState params

/-- An `sdk.Error` as built by `sdk.NewError`: codespace, code and message. -/
structure SdkError where
  Codespace : String
  Code : Nat
  Msg : String
  deriving DecidableEq, Repr

/-- The error constants of the bankx `types` package, declared outside the
sources at hand. -/
structure Codes where
  CodeSpaceBankx : String
  CodeInvalidActivationFee : Nat
  CodeInvalidLockCoinsFee : Nat

/-- `GenesisState.ValidateGenesis` (genesis.go lines 36-47); `none` is the `nil`
error. -/
def GenesisState.ValidateGenesis {ε : Type} (codes : Codes) (data : GenesisState ε) :
    Option SdkError :=
  let activationFee := data.Param.ActivationFee
  if activationFee < 0 then
    some { Codespace := codes.CodeSpaceBankx, Code := codes.CodeInvalidActivationFee,
           Msg := "invalid activated fees" }
  else if data.Param.LockCoinsFee < 0 then
    some { Codespace := codes.CodeSpaceBankx, Code := codes.CodeInvalidLockCoinsFee,
           Msg := "invalid lock coins fee" }
  else none

/-- A keeper whose store is the parameter cell itself. -/
def cellKeeper : Keeper (Params Unit) Unit :=
  { SetParam := fun _ p => p, GetParam := fun ctx => ctx }

end bankx

/-! ## Testnet addresses (`cmd/cetd/testnet.go`, `calculateIP`) -/

/-- The four bytes of an IPv4 address, as `net.IP.To4()` returns them. -/
structure IPv4 where
  b0 : Nat
  b1 : Nat
  b2 : Nat
  b3 : Nat
  deriving DecidableEq, Repr

/-- `net.IP.String()` on a four-byte address: dotted decimal. -/
def IPv4.String (v : IPv4) : String :=
  toString v.b0 ++ "." ++ toString v.b1 ++ "." ++ toString v.b2 ++ "." ++ toString v.b3

/-- `calculateIP` (testnet.go lines 441-452).  `ParseIPTo4` is
`net.ParseIP(ip).To4()` of the Go standard library (`none` is `nil`); the loop
runs `i` times for `i > 0` and not at all otherwise, each round doing
`ipv4[3]++` on a byte.  Returns the string and the error (`none` is `nil`). -/
def calculateIP (ParseIPTo4 : String → Option IPv4) (ip : String) (i : Int) :
    String × Option String :=
  match ParseIPTo4 ip with
  | none => ("", some (ip ++ ": non ipv4 address"))
  | some ipv4 =>
    let ipv4 := (List.range i.toNat).foldl (fun v _ => { v with b3 := (v.b3 + 1) % 256 }) ipv4
    (ipv4.String, none)

/-- Split a character list at the dots. -/
def splitDots : List Char → List (List Char)
  | [] => [[]]
  | c :: cs =>
    if c = '.' then [] :: splitDots cs
    else
      match splitDots cs with
      | [] => [[c]]
      | field :: fields => (c :: field) :: fields

/-- A decimal field of one to three digits with value at most 255. -/
def parseOctet (cs : List Char) : Option Nat :=
  if cs.length = 0 ∨ 3 < cs.length then none
  else if cs.all (fun c => decide ('0' ≤ c ∧ c ≤ '9')) then
    let n := cs.foldl (fun acc c => acc * 10 + (c.toNat - 48)) 0
    if n ≤ 255 then some n else none
  else none

/-- A stand-in for `net.ParseIP(ip).To4()` on dotted-decimal text only: four
decimal fields of one to three digits separated by dots, each at most 255.  It
does not cover the IPv4-mapped IPv6 text the library also accepts, and it takes
leading zeros as decimal, as the library did before Go 1.17.  It is used only to
evaluate `calculateIP` on plain dotted-decimal inputs. -/
def parseDottedQuad (ip : String) : Option IPv4 :=
  match (splitDots ip.toList).map parseOctet with
  | [some a, some b, some c, some d] => some { b0 := a, b1 := b, b2 := c, b3 := d }
  | _ => none

/-! ## Testnet token distribution (`assureTokenDistributionInGenesis`) -/

/-- Smallest `int64`. -/
def minInt64 : Int := -9223372036854775808

/-- Largest `int64`. -/
def maxInt64 : Int := 9223372036854775807

/-- The `int64` the machine keeps of an exact result: wrap-around modulo
`2^64` into the range from `minInt64` to `maxInt64`. -/
def wrapInt64 (x : Int) : Int :=
  (x + 9223372036854775808) % 18446744073709551616 - 9223372036854775808

/-- An `sdk.Coin`: denomination and amount; `sdk.Int` is a signed big integer. -/
structure Coin where
  Denom : String
  Amount : Int
  deriving DecidableEq, Repr

/-- The `app.GenesisAccount`.  The type is declared outside the sources at
hand: `testnet.go` uses the address and the coins, whatever else the type
holds is `rest`. -/
structure GenesisAccount (ε : Type) where
  Address : Bytes
  Coins : List Coin
  rest : ε
  deriving DecidableEq, Repr

/-- `sdk.Int.Int64()`: the amount as `int64`; it panics when the amount is out
of the `int64` range. -/
def sdkIntInt64 (a : Int) : Except String Int :=
  if minInt64 ≤ a ∧ a ≤ maxInt64 then .ok a else .error "Int64() out of bound"

/-- `sdk.NewCoin(denom, amount)`: it panics on a negative amount.  (The
denomination check of the library is not modelled: the bond denomination is a
valid one.) -/
def NewCoin (denom : String) (amount : Int) : Except String Coin :=
  if amount < 0 then .error "negative coin amount" else .ok { Denom := denom, Amount := amount }

/-- The loop of `assureTokenDistributionInGenesis` (testnet.go lines 332-335):
`distributedTokens += acc.Coins[0].Amount.Int64()` for each account, in
`int64` arithmetic; indexing an empty `Coins` panics. -/
def sumDistributedTokens {ε : Type} :
    List (GenesisAccount ε) → Int → Except String Int
  | [], distributedTokens => .ok distributedTokens
  | acc :: accs, distributedTokens =>
    match acc.Coins with
    | [] => .error "index out of range"
    | coin :: _ =>
      match sdkIntInt64 coin.Amount with
      | .error e => .error e
      | .ok amount => sumDistributedTokens accs (wrapInt64 (distributedTokens + amount))

/-- `assureTokenDistributionInGenesis` (testnet.go lines 331-346).
`DefaultBondDenom` is the constant of the `dex` types package and
`leftTokensAddress` the address hashed from "left_tokens", both computed
outside the sources at hand; `zeroRest` is the zero value of the fields the
struct literal leaves out.  `testnetSupply` is an `int64`; the difference is
taken in `int64` arithmetic.  A panic is an `Except.error`. -/
def assureTokenDistributionInGenesis {ε : Type} (DefaultBondDenom : String)
    (leftTokensAddress : Bytes) (zeroRest : ε)
    (accs : List (GenesisAccount ε)) (testnetSupply : Int) :
    Except String (List (GenesisAccount ε)) :=
  match sumDistributedTokens accs 0 with
  | .error e => .error e
  | .ok distributedTokens =>
    if testnetSupply > distributedTokens then
      match NewCoin DefaultBondDenom (wrapInt64 (testnetSupply - distributedTokens)) with
      | .error e => .error e
      | .ok coin =>
        .ok (accs ++ [{ Address := leftTokensAddress, Coins := [coin], rest := zeroRest }])
    else .ok accs

/-- The amount of the first coin of an account (0 when it has no coin). -/
def firstCoinAmount {ε : Type} (acc : GenesisAccount ε) : Int :=
  match acc.Coins with
  | [] => 0
  | coin :: _ => coin.Amount

/-- The exact sum of the first-coin amounts of an account list. -/
def sumFirstCoins {ε : Type} (accs : List (GenesisAccount ε)) : Int :=
  (accs.map firstCoinAmount).sum

/-! ### Lemmas on the module map -/

theorem lookup_mapSet_self {β : Type} (m : List (String × β)) (k : String) (v : β) :
    (mapSet m k v).lookup k = some v := by
  simp [mapSet, List.lookup]

theorem lookup_filter_ne {β : Type} (m : List (String × β)) (k k' : String) (h : k' ≠ k) :
    (m.filter (fun p => p.1 != k)).lookup k' = m.lookup k' := by
  induction m with
  | nil => rfl
  | cons p m ih =>
    obtain ⟨a, b⟩ := p
    by_cases hak : a = k
    · subst hak
      have hne : (k' == a) = false := by simpa using h
      simp [List.filter, List.lookup, hne, ih]
    · have h1 : (a != k) = true := by simpa using hak
      simp only [List.filter, h1, List.lookup]
      cases hka : (k' == a) <;> simp [ih]

theorem lookup_mapSet_ne {β : Type} (m : List (String × β)) (k k' : String) (v : β)
    (h : k' ≠ k) : (mapSet m k v).lookup k' = m.lookup k' := by
  have hne : (k' == k) = false := by simpa using h
  simp [mapSet, List.lookup, hne, lookup_filter_ne m k k' h]

theorem lookup_foldl_not_mem {σ : Type} (modules : List (AppModuleBasic σ))
    (acc : List (String × AppModuleBasic σ)) (k : String)
    (h : k ∉ modules.map (fun b => b.Name)) :
    (modules.foldl (fun m b => mapSet m b.Name b) acc).lookup k = acc.lookup k := by
  induction modules generalizing acc with
  | nil => rfl
  | cons b bs ih =>
    simp only [List.map_cons, List.mem_cons, not_or] at h
    rw [List.foldl_cons, ih _ h.2, lookup_mapSet_ne _ _ _ _ h.1]

theorem lookup_foldl_mem {σ : Type} (modules : List (AppModuleBasic σ))
    (acc : List (String × AppModuleBasic σ))
    (hnd : (modules.map (fun b => b.Name)).Nodup) (b : AppModuleBasic σ) (hb : b ∈ modules) :
    (modules.foldl (fun m b => mapSet m b.Name b) acc).lookup b.Name = some b := by
  induction modules generalizing acc with
  | nil => cases hb
  | cons c cs ih =>
    rw [List.map_cons, List.nodup_cons] at hnd
    rw [List.foldl_cons]
    rcases List.mem_cons.1 hb with rfl | hmem
    · rw [lookup_foldl_not_mem _ _ _ hnd.1, lookup_mapSet_self]
    · exact ih _ hnd.2 hmem

theorem foldl_lookup_eq {σ : Type} (M : List (String × AppModuleBasic σ))
    (visit : AppModuleBasic σ → σ → σ) (l : List (AppModuleBasic σ))
    (h : ∀ b ∈ l, M.lookup b.Name = some b) (s : σ) :
    (l.map (fun b => b.Name)).foldl
      (fun acc n =>
        match M.lookup n with
        | some b => visit b acc
        | none => acc) s
      = l.foldl (fun acc b => visit b acc) s := by
  induction l generalizing s with
  | nil => rfl
  | cons b bs ih =>
    have hb := h b (List.mem_cons_self _ _)
    simp only [List.map_cons, List.foldl_cons, hb]
    exact ih (fun c hc => h c (List.mem_cons_of_mem _ hc)) _

theorem forEachInDefaultOrder_eq {σ : Type} (modules : List (AppModuleBasic σ))
    (hnd : (modules.map (fun b => b.Name)).Nodup)
    (visit : AppModuleBasic σ → σ → σ) (s : σ) :
    forEachInDefaultOrder (NewOrderedBasicManager modules) visit s
      = modules.foldl (fun acc b => visit b acc) s :=
  foldl_lookup_eq _ visit modules
    (fun b hb => lookup_foldl_mem modules [] hnd b hb) s

/-! ### Lemmas on the phase orders -/

theorem registeredNames_eq_map (w : Wiring) :
    InitModules.registeredNames w = InitModules.registeredPkgs.map w.ModuleName := rfl

theorem initGenesisOrder_eq_map (w : Wiring) :
    (InitModules w).OrderInitGenesis = InitModules.initGenesisPkgs.map w.ModuleName := rfl

theorem exportGenesisOrder_eq_map (w : Wiring) :
    (InitModules w).OrderExportGenesis = InitModules.initGenesisPkgs.map w.ModuleName := rfl

theorem beginBlockers_eq_map (w : Wiring) :
    (InitModules w).OrderBeginBlockers
      = [Pkg.market, .incentive, .distr, .slashing].map w.ModuleName := rfl

theorem endBlockers_eq_map (w : Wiring) :
    (InitModules w).OrderEndBlockers
      = [Pkg.gov, .staking, .authx, .market, .crisis].map w.ModuleName := rfl

theorem stdWiring_injective : Function.Injective stdWiring.ModuleName := by
  intro a b h
  cases a <;> cases b <;> first | rfl | (exact absurd h (by decide))

/-! ### Lemmas on the event pipeline -/

theorem filter_foldl_eq (events : List Event) (acc : List Event × List PubMsg) :
    events.foldl
      (fun acc event =>
        if event.onlyKafka then (acc.1, acc.2 ++ [event.toPubMsg])
        else (acc.1 ++ [event], acc.2)) acc
      = (acc.1 ++ events.filter (fun e => !e.onlyKafka),
         acc.2 ++ (events.filter Event.onlyKafka).map Event.toPubMsg) := by
  induction events generalizing acc with
  | nil => simp
  | cons e es ih =>
    rw [List.foldl_cons, ih]
    cases h : e.onlyKafka <;> simp [h]

theorem FilterMsgsOnlyKafka_eq (events : List Event) (PubMsgs : List PubMsg) :
    FilterMsgsOnlyKafka events PubMsgs
      = (events.filter (fun e => !e.onlyKafka),
         PubMsgs ++ (events.filter Event.onlyKafka).map Event.toPubMsg) := by
  unfold FilterMsgsOnlyKafka
  rw [filter_foldl_eq]
  simp

theorem remove_foldl_eq (events : List Event) (acc : List Event) :
    events.foldl (fun acc event => if event.onlyKafka then acc else acc ++ [event]) acc
      = acc ++ events.filter (fun e => !e.onlyKafka) := by
  induction events generalizing acc with
  | nil => simp
  | cons e es ih =>
    rw [List.foldl_cons, ih]
    cases h : e.onlyKafka <;> simp [h]

theorem RemoveMsgsOnlyKafka_eq (events : List Event) :
    RemoveMsgsOnlyKafka events = events.filter (fun e => !e.onlyKafka) := by
  unfold RemoveMsgsOnlyKafka
  rw [remove_foldl_eq]
  simp

theorem send_foldl_eq (msgs : List PubMsg) (acc : List (Bytes × Bytes)) :
    msgs.foldl (fun acc msg => acc ++ [(msg.Key, msg.Value)]) acc
      = acc ++ msgs.map (fun msg => (msg.Key, msg.Value)) := by
  induction msgs generalizing acc with
  | nil => simp
  | cons m ms ih => rw [List.foldl_cons, ih]; simp

theorem map_toPubMsg_eq (events : List Event) :
    ((events.filter Event.onlyKafka).map Event.toPubMsg).map (fun msg => (msg.Key, msg.Value))
      = publishedOf events := by
  simp [publishedOf, List.map_map, Function.comp_def]

theorem Commit_sent {σ : Type} (c : Collaborators σ) (w : World σ) :
    (Commit c w).2.sent = w.sent ++ w.PubMsgs.map (fun msg => (msg.Key, msg.Value)) := by
  simp [Commit, send_foldl_eq]

theorem Commit_PubMsgs {σ : Type} (c : Collaborators σ) (w : World σ) :
    (Commit c w).2.PubMsgs = w.PubMsgs := rfl

theorem BeginBlocker_PubMsgs {σ : Type} (c : Collaborators σ) (w : World σ)
    (req : RequestBeginBlock) :
    (BeginBlocker c w req).2.PubMsgs
      = ((c.mmBeginBlock w.base req).1.Events.filter Event.onlyKafka).map Event.toPubMsg := by
  simp [BeginBlocker, FilterMsgsOnlyKafka_eq]

theorem DeliverTx_base {σ : Type} (c : Collaborators σ) (w : World σ) (req : RequestDeliverTx) :
    (DeliverTx c w req).2.base = (c.baseDeliverTx w.base req).2 := by
  by_cases h : (c.baseDeliverTx w.base req).1.Code = CodeOK <;> simp [DeliverTx, h]

theorem DeliverTx_sent {σ : Type} (c : Collaborators σ) (w : World σ) (req : RequestDeliverTx) :
    (DeliverTx c w req).2.sent = w.sent := by
  by_cases h : (c.baseDeliverTx w.base req).1.Code = CodeOK <;> simp [DeliverTx, h]

theorem DeliverTx_PubMsgs {σ : Type} (c : Collaborators σ) (w : World σ)
    (req : RequestDeliverTx) :
    (DeliverTx c w req).2.PubMsgs
      = w.PubMsgs ++
        (if (c.baseDeliverTx w.base req).1.Code = CodeOK then
          ((c.baseDeliverTx w.base req).1.Events.filter Event.onlyKafka).map Event.toPubMsg
         else []) := by
  by_cases h : (c.baseDeliverTx w.base req).1.Code = CodeOK <;>
    simp [DeliverTx, h, FilterMsgsOnlyKafka_eq]

theorem DeliverTxs_base {σ : Type} (c : Collaborators σ) (w : World σ)
    (reqs : List RequestDeliverTx) :
    (DeliverTxs c w reqs).2.base = (baseDeliverTxs c w.base reqs).2 := by
  induction reqs generalizing w with
  | nil => rfl
  | cons r rs ih =>
    simp only [DeliverTxs, baseDeliverTxs]
    rw [ih, DeliverTx_base]

theorem DeliverTxs_sent {σ : Type} (c : Collaborators σ) (w : World σ)
    (reqs : List RequestDeliverTx) :
    (DeliverTxs c w reqs).2.sent = w.sent := by
  induction reqs generalizing w with
  | nil => rfl
  | cons r rs ih =>
    simp only [DeliverTxs]
    rw [ih, DeliverTx_sent]

theorem DeliverTxs_PubMsgs {σ : Type} (c : Collaborators σ) (w : World σ)
    (reqs : List RequestDeliverTx) :
    (DeliverTxs c w reqs).2.PubMsgs
      = w.PubMsgs ++
        ((((baseDeliverTxs c w.base reqs).1.filter (fun r => r.Code = CodeOK)).map
            (fun r => (r.Events.filter Event.onlyKafka).map Event.toPubMsg)).flatten) := by
  induction reqs generalizing w with
  | nil => simp [DeliverTxs, baseDeliverTxs]
  | cons r rs ih =>
    simp only [DeliverTxs, baseDeliverTxs]
    rw [ih, DeliverTx_PubMsgs, DeliverTx_base]
    by_cases h : (c.baseDeliverTx w.base r).1.Code = CodeOK
    · simp [h, List.filter_cons]
    · simp [h, List.filter_cons]

theorem map_flatten_published (rs : List ResponseDeliverTx) :
    ((rs.map (fun r => (r.Events.filter Event.onlyKafka).map Event.toPubMsg)).flatten).map
        (fun msg => (msg.Key, msg.Value))
      = (rs.map (fun r => publishedOf r.Events)).flatten := by
  induction rs with
  | nil => rfl
  | cons r rs ih =>
    simp only [List.map_cons, List.flatten_cons, List.map_append, ih, map_toPubMsg_eq]

theorem runBlock_sent {σ : Type} (c : Collaborators σ) (w : World σ) (bb : RequestBeginBlock)
    (txs : List RequestDeliverTx) (eb : RequestEndBlock) :
    (runBlock c w bb txs eb).sent = w.sent ++ expectedPublication c w.base bb txs eb := by
  have hb : (BeginBlocker c w bb).2.base = (c.mmBeginBlock w.base bb).2 := rfl
  have hbs : (BeginBlocker c w bb).2.sent = w.sent := rfl
  simp only [runBlock, Commit_sent, EndBlocker, FilterMsgsOnlyKafka_eq, DeliverTxs_base,
    DeliverTxs_sent, DeliverTxs_PubMsgs, BeginBlocker_PubMsgs, hb, hbs, expectedPublication,
    List.map_append, map_toPubMsg_eq, map_flatten_published, List.append_assoc]

theorem DeliverTx_response {σ : Type} (c : Collaborators σ) (w : World σ)
    (req : RequestDeliverTx) :
    (DeliverTx c w req).1 = stripOnlyKafka (c.baseDeliverTx w.base req).1 := by
  by_cases h : (c.baseDeliverTx w.base req).1.Code = CodeOK <;>
    simp [DeliverTx, h, FilterMsgsOnlyKafka_eq, RemoveMsgsOnlyKafka_eq, stripOnlyKafka]

theorem DeliverTxs_responses {σ : Type} (c : Collaborators σ) (w : World σ)
    (reqs : List RequestDeliverTx) :
    (DeliverTxs c w reqs).1 = (baseDeliverTxs c w.base reqs).1.map stripOnlyKafka := by
  induction reqs generalizing w with
  | nil => rfl
  | cons r rs ih =>
    simp only [DeliverTxs, baseDeliverTxs, List.map_cons]
    rw [ih, DeliverTx_response, DeliverTx_base]

theorem filter_eraseIdx_of_not {α : Type} (p : α → Bool) (l : List α) (i : Nat)
    (hi : i < l.length) (h : p (l.get ⟨i, hi⟩) = false) :
    (l.eraseIdx i).filter p = l.filter p := by
  induction l generalizing i with
  | nil => cases hi
  | cons a as ih =>
    cases i with
    | zero =>
      have h0 : p a = false := h
      simp [List.eraseIdx, List.filter_cons, h0]
    | succ j =>
      have hj : j < as.length := Nat.lt_of_succ_lt_succ hi
      have h2 : p (as.get ⟨j, hj⟩) = false := h
      simp only [List.eraseIdx, List.filter_cons, ih j hj h2]

theorem succPublished_eraseIdx (rs : List ResponseDeliverTx) (i : Nat) (hi : i < rs.length)
    (h : (rs.get ⟨i, hi⟩).Code ≠ CodeOK) :
    succPublished (rs.eraseIdx i) = succPublished rs := by
  unfold succPublished
  rw [filter_eraseIdx_of_not _ rs i hi (by simpa using h)]

theorem runBlock_sent_succPublished {σ : Type} (c : Collaborators σ) (w : World σ)
    (bb : RequestBeginBlock) (txs : List RequestDeliverTx) (eb : RequestEndBlock) :
    (runBlock c w bb txs eb).sent
      = w.sent
        ++ (publishedOf (c.mmBeginBlock w.base bb).1.Events
        ++ succPublished (baseDeliverTxs c (c.mmBeginBlock w.base bb).2 txs).1
        ++ publishedOf
            (c.mmEndBlock (baseDeliverTxs c (c.mmBeginBlock w.base bb).2 txs).2 eb).1.Events) := by
  rw [runBlock_sent]
  rfl

/-! ### Lemmas on genesis validation -/

theorem ValidateGenesis_some {τ : Type} (range : List (String × AppModuleBasic τ))
    (genesis : String → Bytes) (err : String) (h : ValidateGenesis range genesis = some err) :
    ∃ p ∈ range, p.2.ValidateGenesis (genesis p.2.Name) = some err := by
  induction range with
  | nil => simp [ValidateGenesis] at h
  | cons p rest ih =>
    obtain ⟨n, b⟩ := p
    cases hb : b.ValidateGenesis (genesis b.Name) with
    | some e =>
      simp only [ValidateGenesis, hb, Option.some.injEq] at h
      subst h
      exact ⟨(n, b), List.mem_cons_self _ _, hb⟩
    | none =>
      simp only [ValidateGenesis, hb] at h
      obtain ⟨q, hq, hv⟩ := ih h
      exact ⟨q, List.mem_cons_of_mem _ hq, hv⟩

theorem ValidateGenesis_none_iff {τ : Type} (range : List (String × AppModuleBasic τ))
    (genesis : String → Bytes) :
    ValidateGenesis range genesis = none
      ↔ ∀ p ∈ range, p.2.ValidateGenesis (genesis p.2.Name) = none := by
  induction range with
  | nil => simp [ValidateGenesis]
  | cons p rest ih =>
    obtain ⟨n, b⟩ := p
    cases hb : b.ValidateGenesis (genesis b.Name) with
    | some e => simp [ValidateGenesis, hb]
    | none => simp [ValidateGenesis, hb, ih]

/-! ### Lemmas on the invariant wiring -/

theorem lookup_foldl_mapSet_not_mem {β : Type} (name : β → String) (ms : List β)
    (acc : List (String × β)) (k : String) (h : k ∉ ms.map name) :
    (ms.foldl (fun m b => mapSet m (name b) b) acc).lookup k = acc.lookup k := by
  induction ms generalizing acc with
  | nil => rfl
  | cons b bs ih =>
    simp only [List.map_cons, List.mem_cons, not_or] at h
    rw [List.foldl_cons, ih _ h.2, lookup_mapSet_ne _ _ _ _ h.1]

theorem lookup_foldl_mapSet_mem {β : Type} (name : β → String) (ms : List β)
    (acc : List (String × β)) (hnd : (ms.map name).Nodup) (b : β) (hb : b ∈ ms) :
    (ms.foldl (fun m b => mapSet m (name b) b) acc).lookup (name b) = some b := by
  induction ms generalizing acc with
  | nil => cases hb
  | cons c cs ih =>
    rw [List.map_cons, List.nodup_cons] at hnd
    rw [List.foldl_cons]
    rcases List.mem_cons.1 hb with rfl | hmem
    · rw [lookup_foldl_mapSet_not_mem name _ _ _ hnd.1, lookup_mapSet_self]
    · exact ih _ hnd.2 hmem

theorem mem_of_lookup_eq_some {β : Type} (l : List (String × β)) (k : String) (v : β)
    (h : l.lookup k = some v) : (k, v) ∈ l := by
  induction l with
  | nil => simp [List.lookup] at h
  | cons p l ih =>
    obtain ⟨a, b⟩ := p
    by_cases hka : k = a
    · subst hka
      simp only [List.lookup, beq_self_eq_true, Option.some.injEq] at h
      subst h
      exact List.mem_cons_self _ _
    · have hne : (k == a) = false := by simpa using hka
      simp only [List.lookup, hne] at h
      exact List.mem_cons_of_mem _ (ih h)

theorem registerRoutes_foldl (invs : List InvarRoute) (k : CrisisKeeper) :
    invs.foldl (fun k r => k.RegisterRoute r.ModuleName r.Route) k
      = { routes := k.routes ++ invs, invCheckPeriod := k.invCheckPeriod } := by
  induction invs generalizing k with
  | nil => simp
  | cons r rs ih =>
    rw [List.foldl_cons, ih]
    simp [CrisisKeeper.RegisterRoute]

theorem RegisterInvariants_eq (range : List (String × AppModuleInv)) (k : CrisisKeeper) :
    RegisterInvariants range k
      = { routes := k.routes ++ (range.map (fun e => e.2.invariants)).flatten
          invCheckPeriod := k.invCheckPeriod } := by
  unfold RegisterInvariants
  induction range generalizing k with
  | nil => simp
  | cons e es ih =>
    rw [List.foldl_cons, registerRoutes_foldl, ih]
    simp

theorem invModule_name (w : Wiring) (inv : Pkg → List InvarRoute) (k : CrisisKeeper)
    (p : Pkg) : (InitModules.invModule w inv k p).Name = w.ModuleName p := by
  unfold InitModules.invModule
  split
  · next h => rw [h]; rfl
  · rfl

theorem invModules_names (w : Wiring) (inv : Pkg → List InvarRoute) (k : CrisisKeeper)
    (l : List Pkg) :
    (l.map (InitModules.invModule w inv k)).map (fun b => b.Name) = l.map w.ModuleName := by
  rw [List.map_map]
  exact List.map_congr_left (fun p _ => invModule_name w inv k p)

theorem lookup_initial_mmModules (w : Wiring) (hinj : Function.Injective w.ModuleName)
    (inv : Pkg → List InvarRoute) (k : CrisisKeeper) (p : Pkg) :
    ((InitModules.registeredPkgs.map (InitModules.invModule w inv k)).foldl
        (fun m b => mapSet m b.Name b) []).lookup (w.ModuleName p)
      = some (InitModules.invModule w inv k p) := by
  have hnd : ((InitModules.registeredPkgs.map (InitModules.invModule w inv k)).map
      (fun b => b.Name)).Nodup := by
    rw [invModules_names]
    exact (List.nodup_map_iff hinj).2 (by decide)
  have hmem : InitModules.invModule w inv k p
      ∈ InitModules.registeredPkgs.map (InitModules.invModule w inv k) :=
    List.mem_map_of_mem _ (by cases p <;> decide)
  have h := lookup_foldl_mapSet_mem (fun b : AppModuleInv => b.Name) _ [] hnd _ hmem
  simp only [invModule_name] at h
  exact h

theorem invariantWiring_crisisKeeper (w : Wiring) (inv : Pkg → List InvarRoute)
    (enum : List (String × AppModuleInv) → List (String × AppModuleInv)) (N : Nat) :
    (InitModules.invariantWiring w inv enum N).crisisKeeper
      = { routes :=
            [{ ModuleName := w.ModuleName .authx, Route := "pre-total-supply" }]
            ++ ((enum ((InitModules.registeredPkgs.map
                  (InitModules.invModule w inv (crisis.NewKeeper N))).foldl
                  (fun m b => mapSet m b.Name b) [])).map (fun e => e.2.invariants)).flatten
          invCheckPeriod := N } := by
  simp only [InitModules.invariantWiring, replaceEmptyCrisisModule, RegisterInvariants_eq,
    CrisisKeeper.RegisterRoute, crisis.NewKeeper, List.nil_append]

theorem invariantWiring_lookup (w : Wiring) (hinj : Function.Injective w.ModuleName)
    (inv : Pkg → List InvarRoute)
    (enum : List (String × AppModuleInv) → List (String × AppModuleInv)) (N : Nat) (p : Pkg) :
    (InitModules.invariantWiring w inv enum N).mmModules.lookup (w.ModuleName p)
      = some (if p = Pkg.crisis then
                crisis.NewAppModule w (InitModules.invariantWiring w inv enum N).crisisKeeper
              else { Name := w.ModuleName p, invariants := inv p, crisisKeeper := none }) := by
  by_cases hp : p = Pkg.crisis
  · subst hp
    simp only [InitModules.invariantWiring, replaceEmptyCrisisModule, lookup_mapSet_self,
      if_true]
  · have hne : w.ModuleName p ≠ w.ModuleName .crisis := fun h => hp (hinj h)
    simp only [InitModules.invariantWiring, replaceEmptyCrisisModule, if_neg hp]
    rw [lookup_mapSet_ne _ _ _ _ hne, lookup_initial_mmModules w hinj]
    simp [InitModules.invModule, hp]

theorem invariantRuns_eq (w : Wiring) (hinj : Function.Injective w.ModuleName)
    (inv : Pkg → List InvarRoute)
    (enum : List (String × AppModuleInv) → List (String × AppModuleInv)) (N h : Nat) :
    invariantRuns (InitModules.invariantWiring w inv enum N) h
      = if 0 < N ∧ h % N = 0 then
          [(InitModules.invariantWiring w inv enum N).crisisKeeper.routes]
        else [] := by
  have hord : (InitModules.invariantWiring w inv enum N).OrderEndBlockers
      = [w.ModuleName .gov, w.ModuleName .staking, w.ModuleName .authx, w.ModuleName .market,
         w.ModuleName .crisis] := rfl
  have hper : (InitModules.invariantWiring w inv enum N).crisisKeeper.invCheckPeriod = N := by
    rw [invariantWiring_crisisKeeper]
  unfold invariantRuns
  rw [hord]
  simp only [List.filterMap_cons, List.filterMap_nil, invariantWiring_lookup w hinj]
  simp only [crisis.NewAppModule, crisis.EndBlocker]
  by_cases hN : 0 < N ∧ h % N = 0
  · have h1 : ¬ (N = 0 ∨ h % N ≠ 0) := by omega
    have h2 : N ≠ 0 := by omega
    simp [hper, hN, h2]
  · have h1 : N = 0 ∨ h % N ≠ 0 := by omega
    simp [hper, hN, h1]

theorem exists_unique_multiple_in_window (N : Nat) (hN : 0 < N) (a : Nat) :
    ∃! h : Nat, a ≤ h ∧ h < a + N ∧ h % N = 0 := by
  refine ⟨(a + N - 1) / N * N, ⟨?_, ?_, ?_⟩, ?_⟩
  · have h1 := Nat.div_add_mod (a + N - 1) N
    have h2 := Nat.mod_lt (a + N - 1) hN
    rw [Nat.mul_comm] at h1
    omega
  · have h1 := Nat.div_add_mod (a + N - 1) N
    rw [Nat.mul_comm] at h1
    omega
  · exact Nat.mul_mod_left _ _
  · rintro y ⟨hy1, hy2, hy3⟩
    have hd : N ∣ y := Nat.dvd_of_mod_eq_zero hy3
    obtain ⟨k, rfl⟩ := hd
    have h1 := Nat.div_add_mod (a + N - 1) N
    have h2 := Nat.mod_lt (a + N - 1) hN
    have hk : k = (a + N - 1) / N := by
      apply Nat.le_antisymm
      · rw [Nat.le_div_iff_mul_le hN]
        rw [Nat.mul_comm]
        omega
      · by_contra hlt
        have hlt2 : k + 1 ≤ (a + N - 1) / N := by omega
        have := Nat.mul_le_mul_left N hlt2
        rw [Nat.mul_add, Nat.mul_one] at this
        omega
    rw [hk, Nat.mul_comm]

theorem mem_registeredNames_of_map (w : Wiring) (l : List Pkg) (n : String)
    (hn : n ∈ l.map w.ModuleName) : n ∈ InitModules.registeredNames w := by
  rw [List.mem_map] at hn
  obtain ⟨p, _, rfl⟩ := hn
  rw [registeredNames_eq_map]
  exact List.mem_map_of_mem _ (by cases p <;> decide)

/-! ### Lemmas on route registration and run order -/

theorem registerRoutes_foldl_eq {ρ κ : Type} (routerAddRoute : ρ → String → AppModule → ρ)
    (queryAddRoute : κ → String → AppModule → κ) (modules : List AppModule)
    (router : ρ) (queryRouter : κ) :
    registerRoutesWithOrder routerAddRoute queryAddRoute modules router queryRouter
      = ((modules.filter (fun m => decide (m.Route ≠ ""))).foldl
            (fun r m => routerAddRoute r m.Route m) router,
         (modules.filter (fun m => decide (m.QuerierRoute ≠ ""))).foldl
            (fun q m => queryAddRoute q m.QuerierRoute m) queryRouter) := by
  unfold registerRoutesWithOrder
  induction modules generalizing router queryRouter with
  | nil => rfl
  | cons m ms ih =>
    rw [List.foldl_cons, ih]
    by_cases h1 : m.Route = "" <;> by_cases h2 : m.QuerierRoute = "" <;>
      simp [List.filter_cons, h1, h2]

theorem recordAddRoute_foldl (route : AppModule → String) (ms : List AppModule)
    (calls : List (String × String)) :
    ms.foldl (fun r m => recordAddRoute r (route m) m) calls
      = calls ++ ms.map (fun m => (route m, m.Name)) := by
  induction ms generalizing calls with
  | nil => simp
  | cons m ms ih =>
    rw [List.foldl_cons, ih]
    simp [recordAddRoute]

theorem lookup_InitModules (w : Wiring) (hinj : Function.Injective w.ModuleName) (p : Pkg) :
    (InitModules w).Modules.lookup (w.ModuleName p) = some (NewAppModule w p) := by
  have hmods : InitModules.modules w = InitModules.registeredPkgs.map (NewAppModule w) := rfl
  have hM : (InitModules w).Modules
      = (InitModules.modules w).foldl (fun m b => mapSet m b.Name b) [] := rfl
  have hnd : ((InitModules.modules w).map (fun b : AppModule => b.Name)).Nodup := by
    have : (InitModules.modules w).map (fun b : AppModule => b.Name)
        = InitModules.registeredPkgs.map w.ModuleName := rfl
    rw [this]
    exact (List.nodup_map_iff hinj).2 (by decide)
  have hmem : NewAppModule w p ∈ InitModules.modules w := by
    rw [hmods]
    exact List.mem_map_of_mem _ (by cases p <;> decide)
  rw [hM]
  exact lookup_foldl_mapSet_mem (fun b : AppModule => b.Name) _ [] hnd _ hmem

/-! ### Lemmas on the testnet helpers -/

theorem wrapInt64_eq_self (x : Int) (h1 : minInt64 ≤ x) (h2 : x ≤ maxInt64) :
    wrapInt64 x = x := by
  unfold minInt64 at h1
  unfold maxInt64 at h2
  unfold wrapInt64
  omega

theorem sumFirstCoins_cons {ε : Type} (acc : GenesisAccount ε) (accs : List (GenesisAccount ε)) :
    sumFirstCoins (acc :: accs) = firstCoinAmount acc + sumFirstCoins accs := by
  simp [sumFirstCoins]

theorem sumFirstCoins_append_singleton {ε : Type} (accs : List (GenesisAccount ε))
    (acc : GenesisAccount ε) :
    sumFirstCoins (accs ++ [acc]) = sumFirstCoins accs + firstCoinAmount acc := by
  simp [sumFirstCoins]

theorem sumFirstCoins_nonneg {ε : Type} (accs : List (GenesisAccount ε))
    (hnonneg : ∀ acc ∈ accs, 0 ≤ firstCoinAmount acc) : 0 ≤ sumFirstCoins accs := by
  induction accs with
  | nil => simp [sumFirstCoins]
  | cons a as ih =>
    rw [sumFirstCoins_cons]
    have h1 := hnonneg a (List.mem_cons_self _ _)
    have h2 := ih (fun acc hacc => hnonneg acc (List.mem_cons_of_mem _ hacc))
    omega

theorem sumDistributedTokens_eq {ε : Type} (accs : List (GenesisAccount ε))
    (distributedTokens : Int)
    (hcoins : ∀ acc ∈ accs, acc.Coins ≠ [])
    (hnonneg : ∀ acc ∈ accs, 0 ≤ firstCoinAmount acc)
    (hd : 0 ≤ distributedTokens)
    (hsum : distributedTokens + sumFirstCoins accs ≤ maxInt64) :
    sumDistributedTokens accs distributedTokens
      = .ok (distributedTokens + sumFirstCoins accs) := by
  induction accs generalizing distributedTokens with
  | nil => simp [sumDistributedTokens, sumFirstCoins]
  | cons a as ih =>
    have hc := hcoins a (List.mem_cons_self _ _)
    have hn := hnonneg a (List.mem_cons_self _ _)
    have htail := sumFirstCoins_nonneg as
      (fun acc hacc => hnonneg acc (List.mem_cons_of_mem _ hacc))
    rw [sumFirstCoins_cons] at hsum
    cases hcs : a.Coins with
    | nil => exact absurd hcs hc
    | cons coin rest =>
      have hfirst : firstCoinAmount a = coin.Amount := by simp [firstCoinAmount, hcs]
      rw [hfirst] at hn hsum
      have hmin : minInt64 ≤ coin.Amount := by unfold minInt64; omega
      have hmax : coin.Amount ≤ maxInt64 := by omega
      have hwrap : wrapInt64 (distributedTokens + coin.Amount)
          = distributedTokens + coin.Amount :=
        wrapInt64_eq_self _ (by unfold minInt64; omega) (by omega)
      simp only [sumDistributedTokens, hcs, sdkIntInt64, hmin, hmax, and_self, if_true, hwrap]
      rw [ih _ (fun acc hacc => hcoins acc (List.mem_cons_of_mem _ hacc))
        (fun acc hacc => hnonneg acc (List.mem_cons_of_mem _ hacc)) (by omega) (by omega)]
      rw [sumFirstCoins_cons, hfirst, Int.add_assoc]

theorem wrapInt64_range (x : Int) : minInt64 ≤ wrapInt64 x ∧ wrapInt64 x ≤ maxInt64 := by
  unfold minInt64 maxInt64 wrapInt64
  omega

theorem wrapInt64_add_wrap (x y : Int) : wrapInt64 (wrapInt64 x + y) = wrapInt64 (x + y) := by
  unfold wrapInt64
  omega

theorem sumDistributedTokens_wrap {ε : Type} (accs : List (GenesisAccount ε))
    (distributedTokens : Int)
    (hcoins : ∀ acc ∈ accs, acc.Coins ≠ [])
    (hamt : ∀ acc ∈ accs, minInt64 ≤ firstCoinAmount acc ∧ firstCoinAmount acc ≤ maxInt64)
    (hd : minInt64 ≤ distributedTokens ∧ distributedTokens ≤ maxInt64) :
    sumDistributedTokens accs distributedTokens
      = .ok (wrapInt64 (distributedTokens + sumFirstCoins accs)) := by
  induction accs generalizing distributedTokens with
  | nil =>
    simp only [sumDistributedTokens, sumFirstCoins, List.map_nil, List.sum_nil, Int.add_zero,
      wrapInt64_eq_self _ hd.1 hd.2]
  | cons a as ih =>
    have hc := hcoins a (List.mem_cons_self _ _)
    have ha := hamt a (List.mem_cons_self _ _)
    cases hcs : a.Coins with
    | nil => exact absurd hcs hc
    | cons coin rest =>
      have hfirst : firstCoinAmount a = coin.Amount := by simp [firstCoinAmount, hcs]
      rw [hfirst] at ha
      simp only [sumDistributedTokens, hcs, sdkIntInt64, ha.1, ha.2, and_self, if_true]
      rw [ih _ (fun acc hacc => hcoins acc (List.mem_cons_of_mem _ hacc))
        (fun acc hacc => hamt acc (List.mem_cons_of_mem _ hacc)) (wrapInt64_range _)]
      rw [wrapInt64_add_wrap, sumFirstCoins_cons, hfirst, Int.add_assoc]

theorem lastByte_loop (l : List Nat) (v : IPv4) (hb : v.b3 < 256) :
    l.foldl (fun v _ => { v with b3 := (v.b3 + 1) % 256 }) v
      = { b0 := v.b0, b1 := v.b1, b2 := v.b2, b3 := (v.b3 + l.length) % 256 } := by
  induction l generalizing v with
  | nil =>
    simp only [List.foldl_nil, List.length_nil, Nat.add_zero, Nat.mod_eq_of_lt hb]
  | cons x xs ih =>
    rw [List.foldl_cons, ih _ (Nat.mod_lt _ (by decide))]
    simp only [List.length_cons, IPv4.mk.injEq, true_and]
    omega

/-! ## Claims -/

/-- C1: for modules with pairwise distinct names, each default-order traversal
(`RegisterRESTRoutes`, `AddTxCommands`, `AddQueryCommands`) of the manager built
by `NewOrderedBasicManager` runs the matching hook of every input module exactly
once, in the order of the input list, whatever the names are. -/
theorem default_order_is_registration_order {σ : Type} (modules : List (AppModuleBasic σ))
    (hnd : (modules.map (fun b => b.Name)).Nodup) (s : σ) :
    (NewOrderedBasicManager modules).RegisterRESTRoutes s
        = modules.foldl (fun acc b => b.RegisterRESTRoutes acc) s
    ∧ (NewOrderedBasicManager modules).AddTxCommands s
        = modules.foldl (fun acc b => b.GetTxCmd acc) s
    ∧ (NewOrderedBasicManager modules).AddQueryCommands s
        = modules.foldl (fun acc b => b.GetQueryCmd acc) s :=
  ⟨forEachInDefaultOrder_eq modules hnd _ s,
   forEachInDefaultOrder_eq modules hnd _ s,
   forEachInDefaultOrder_eq modules hnd _ s⟩

/-- Witness of C1: the `TestOrders` scenario, modules registered as c, a, b are
visited as c, a, b by all three traversals. -/
theorem default_order_is_registration_order_witness :
    ([mockModuleBasic "c", mockModuleBasic "a", mockModuleBasic "b"].map
        (fun b => b.Name)).Nodup
    ∧ ((NewOrderedBasicManager
          [mockModuleBasic "c", mockModuleBasic "a", mockModuleBasic "b"]).RegisterRESTRoutes
          ⟨"", "", ""⟩).restRoutesOrder = "cab"
    ∧ ((NewOrderedBasicManager
          [mockModuleBasic "c", mockModuleBasic "a", mockModuleBasic "b"]).AddTxCommands
          ⟨"", "", ""⟩).txCmdsOrder = "cab"
    ∧ ((NewOrderedBasicManager
          [mockModuleBasic "c", mockModuleBasic "a", mockModuleBasic "b"]).AddQueryCommands
          ⟨"", "", ""⟩).queryCmdsOrder = "cab" := by
  have hnd : ([mockModuleBasic "c", mockModuleBasic "a", mockModuleBasic "b"].map
      (fun b => b.Name)).Nodup := by decide
  have h := default_order_is_registration_order
    [mockModuleBasic "c", mockModuleBasic "a", mockModuleBasic "b"] hnd ⟨"", "", ""⟩
  refine ⟨hnd, ?_, ?_, ?_⟩
  · rw [h.1]; rfl
  · rw [h.2.1]; rfl
  · rw [h.2.2]; rfl

/-- C2, as stated, fails: the genesis-init order installed by `InitModules` is
not a permutation of the registered module names, since the name of the
registered module `distributionx` does not occur in it (17 names against 18
registered modules). -/
theorem genesis_order_not_perm :
    ¬ List.Perm (InitModules stdWiring).OrderInitGenesis (InitModules.registeredNames stdWiring)
    ∧ stdWiring.ModuleName .distributionx ∈ InitModules.registeredNames stdWiring
    ∧ stdWiring.ModuleName .distributionx ∉ (InitModules stdWiring).OrderInitGenesis := by
  refine ⟨fun h => ?_, by decide, by decide⟩
  have hlen := h.length_eq
  revert hlen
  decide

/-- C2, amended: the genesis-export order equals the genesis-init order, which
has no duplicate and consists of exactly the registered module names other
than that of `distributionx`. -/
theorem genesis_order_registered_except_distributionx (w : Wiring)
    (hinj : Function.Injective w.ModuleName) :
    (InitModules w).OrderExportGenesis = (InitModules w).OrderInitGenesis
    ∧ (InitModules w).OrderInitGenesis.Nodup
    ∧ ∀ n : String, n ∈ (InitModules w).OrderInitGenesis
        ↔ (n ∈ InitModules.registeredNames w ∧ n ≠ w.ModuleName .distributionx) := by
  refine ⟨rfl, ?_, fun n => ?_⟩
  · rw [initGenesisOrder_eq_map]
    exact (List.nodup_map_iff hinj).2 (by decide)
  · rw [initGenesisOrder_eq_map, registeredNames_eq_map, List.mem_map, List.mem_map]
    constructor
    · rintro ⟨p, hp, rfl⟩
      refine ⟨⟨p, ?_, rfl⟩, fun heq => ?_⟩
      · revert hp; cases p <;> decide
      · have := hinj heq
        subst this
        revert hp; decide
    · rintro ⟨⟨p, hp, rfl⟩, hne⟩
      refine ⟨p, ?_, rfl⟩
      have hp2 : p ≠ Pkg.distributionx := fun h => hne (by rw [h])
      revert hp hp2; cases p <;> decide

/-- Witness of the amended C2 at the module names of the deployed packages. -/
theorem genesis_order_registered_except_distributionx_witness :
    Function.Injective stdWiring.ModuleName
    ∧ (InitModules stdWiring).OrderInitGenesis.Nodup
    ∧ (InitModules stdWiring).OrderExportGenesis = (InitModules stdWiring).OrderInitGenesis :=
  ⟨stdWiring_injective,
   (genesis_order_registered_except_distributionx stdWiring stdWiring_injective).2.1,
   (genesis_order_registered_except_distributionx stdWiring stdWiring_injective).1⟩

/-- C3, as stated, fails: neither the begin-block order nor the end-block order
installed by `InitModules` is a permutation of the registered module names;
they list 4 and 5 of the 18 registered modules. -/
theorem block_orders_not_perm :
    ¬ List.Perm (InitModules stdWiring).OrderBeginBlockers
        (InitModules.registeredNames stdWiring)
    ∧ ¬ List.Perm (InitModules stdWiring).OrderEndBlockers
        (InitModules.registeredNames stdWiring)
    ∧ stdWiring.ModuleName .bank ∈ InitModules.registeredNames stdWiring
    ∧ stdWiring.ModuleName .bank ∉ (InitModules stdWiring).OrderBeginBlockers
    ∧ stdWiring.ModuleName .bank ∉ (InitModules stdWiring).OrderEndBlockers := by
  refine ⟨fun h => ?_, fun h => ?_, by decide, by decide, by decide⟩
  · have hlen := h.length_eq
    revert hlen
    decide
  · have hlen := h.length_eq
    revert hlen
    decide

/-- C3, amended: the begin-block order and the end-block order are each a
duplicate-free selection of registered module names: the begin-block order
names exactly market, incentive, distr and slashing, the end-block order
exactly gov, staking, authx, market and crisis. -/
theorem block_orders_select_registered (w : Wiring)
    (hinj : Function.Injective w.ModuleName) :
    (InitModules w).OrderBeginBlockers.Nodup
    ∧ (InitModules w).OrderEndBlockers.Nodup
    ∧ (∀ n ∈ (InitModules w).OrderBeginBlockers, n ∈ InitModules.registeredNames w)
    ∧ (∀ n ∈ (InitModules w).OrderEndBlockers, n ∈ InitModules.registeredNames w)
    ∧ (∀ p : Pkg, w.ModuleName p ∈ (InitModules w).OrderBeginBlockers
        ↔ p ∈ [Pkg.market, .incentive, .distr, .slashing])
    ∧ (∀ p : Pkg, w.ModuleName p ∈ (InitModules w).OrderEndBlockers
        ↔ p ∈ [Pkg.gov, .staking, .authx, .market, .crisis]) := by
  refine ⟨?_, ?_, fun n hn => ?_, fun n hn => ?_, fun p => ?_, fun p => ?_⟩
  · rw [beginBlockers_eq_map]
    exact (List.nodup_map_iff hinj).2 (by decide)
  · rw [endBlockers_eq_map]
    exact (List.nodup_map_iff hinj).2 (by decide)
  · rw [beginBlockers_eq_map, List.mem_map] at hn
    obtain ⟨p, hp, rfl⟩ := hn
    rw [registeredNames_eq_map]
    refine List.mem_map.2 ⟨p, ?_, rfl⟩
    revert hp; cases p <;> decide
  · rw [endBlockers_eq_map, List.mem_map] at hn
    obtain ⟨p, hp, rfl⟩ := hn
    rw [registeredNames_eq_map]
    refine List.mem_map.2 ⟨p, ?_, rfl⟩
    revert hp; cases p <;> decide
  · rw [beginBlockers_eq_map]
    exact List.mem_map_of_injective hinj
  · rw [endBlockers_eq_map]
    exact List.mem_map_of_injective hinj

/-- Witness of the amended C3 at the module names of the deployed packages. -/
theorem block_orders_select_registered_witness :
    Function.Injective stdWiring.ModuleName
    ∧ (InitModules stdWiring).OrderBeginBlockers.Nodup
    ∧ (InitModules stdWiring).OrderEndBlockers.Nodup :=
  ⟨stdWiring_injective,
   (block_orders_select_registered stdWiring stdWiring_injective).1,
   (block_orders_select_registered stdWiring stdWiring_injective).2.1⟩

/-- C5: a transaction whose `DeliverTx` result code is non-zero adds nothing to
the publication buffer and hands nothing to the sink; and in a whole block
(`BeginBlock`, the `DeliverTx` calls, `EndBlock`, one `Commit`) the messages
the `Commit` hands to the sink are those computed with the response of any
transaction of non-zero code left out, so none of its allow-listed events is
published. -/
theorem failed_tx_not_published {σ : Type} (c : Collaborators σ) (w : World σ)
    (req : RequestDeliverTx) (hfail : (DeliverTx c w req).1.Code ≠ CodeOK) :
    (DeliverTx c w req).2.PubMsgs = w.PubMsgs
    ∧ (DeliverTx c w req).2.sent = w.sent
    ∧ (∀ (w0 : World σ) (bb : RequestBeginBlock) (txs : List RequestDeliverTx)
        (eb : RequestEndBlock) (i : Nat)
        (hi : i < (DeliverTxs c (BeginBlocker c w0 bb).2 txs).1.length),
        ((DeliverTxs c (BeginBlocker c w0 bb).2 txs).1.get ⟨i, hi⟩).Code ≠ CodeOK →
        (runBlock c w0 bb txs eb).sent
          = w0.sent
            ++ (publishedOf (c.mmBeginBlock w0.base bb).1.Events
            ++ succPublished ((baseDeliverTxs c (c.mmBeginBlock w0.base bb).2 txs).1.eraseIdx i)
            ++ publishedOf
                (c.mmEndBlock (baseDeliverTxs c (c.mmBeginBlock w0.base bb).2 txs).2
                  eb).1.Events)) := by
  refine ⟨?_, DeliverTx_sent c w req, ?_⟩
  · rw [DeliverTx_response] at hfail
    have hbase : ¬ (c.baseDeliverTx w.base req).1.Code = CodeOK := hfail
    rw [DeliverTx_PubMsgs, if_neg hbase, List.append_nil]
  · intro w0 bb txs eb i hi hcode
    have hb : (BeginBlocker c w0 bb).2.base = (c.mmBeginBlock w0.base bb).2 := rfl
    have hresp := DeliverTxs_responses c (BeginBlocker c w0 bb).2 txs
    rw [hb] at hresp
    have hlen : i < (baseDeliverTxs c (c.mmBeginBlock w0.base bb).2 txs).1.length := by
      have := hi
      rw [hresp, List.length_map] at this
      exact this
    have hcode2 : ((baseDeliverTxs c (c.mmBeginBlock w0.base bb).2 txs).1.get ⟨i, hlen⟩).Code
        ≠ CodeOK := by
      intro h
      apply hcode
      have hget : (DeliverTxs c (BeginBlocker c w0 bb).2 txs).1.get ⟨i, hi⟩
          = stripOnlyKafka
              ((baseDeliverTxs c (c.mmBeginBlock w0.base bb).2 txs).1.get ⟨i, hlen⟩) := by
        simp only [List.get_eq_getElem, hresp, List.getElem_map]
      rw [hget]
      exact h
    rw [runBlock_sent_succPublished, succPublished_eraseIdx _ i hlen hcode2]

/-- Witness of C5: a failing transaction (code 1) that emits an allow-listed
event leaves the buffer as it was. -/
theorem failed_tx_not_published_witness :
    (DeliverTx sampleCollaborators ⟨0, [⟨[9], [9]⟩], []⟩ ⟨[1]⟩).1.Code ≠ CodeOK
    ∧ (DeliverTx sampleCollaborators ⟨0, [⟨[9], [9]⟩], []⟩ ⟨[1]⟩).2.PubMsgs = [⟨[9], [9]⟩] :=
  ⟨by decide,
   (failed_tx_not_published sampleCollaborators ⟨0, [⟨[9], [9]⟩], []⟩ ⟨[1]⟩ (by decide)).1⟩

/-- C6: in a block run as `BeginBlock`, a sequence of `DeliverTx` calls,
`EndBlock`, then one `Commit`, nothing reaches the sink before the `Commit`, and
the `Commit` hands over exactly the expected publication: one `(key, value)`
message per allow-listed event of the begin-block response, of each
transaction of result code 0 and of the end-block response, with the event's
key and value, in emission order. -/
theorem block_publication_exact {σ : Type} (c : Collaborators σ) (w : World σ)
    (bb : RequestBeginBlock) (txs : List RequestDeliverTx) (eb : RequestEndBlock) :
    (EndBlocker c (DeliverTxs c (BeginBlocker c w bb).2 txs).2 eb).2.sent = w.sent
    ∧ (runBlock c w bb txs eb).sent = w.sent ++ expectedPublication c w.base bb txs eb := by
  refine ⟨?_, runBlock_sent c w bb txs eb⟩
  have hbs : (BeginBlocker c w bb).2.sent = w.sent := rfl
  simp only [EndBlocker, DeliverTxs_sent, hbs]

/-- C7, as stated, fails: after `Commit` the buffer still holds the message,
and a second `Commit` with no `BeginBlock` in between hands it to the sink
again. -/
theorem commit_keeps_buffer :
    (Commit sampleCollaborators ⟨0, [⟨[1], [2]⟩], []⟩).2.PubMsgs ≠ []
    ∧ (Commit sampleCollaborators ⟨0, [⟨[1], [2]⟩], []⟩).2.sent = [([1], [2])]
    ∧ (Commit sampleCollaborators (Commit sampleCollaborators ⟨0, [⟨[1], [2]⟩], []⟩).2).2.sent
        = [([1], [2]), ([1], [2])] := by
  decide

/-- C7, amended: `Commit` hands every buffered message to the sink, in buffer
order, and leaves the buffer as it is, so a second `Commit` with no
`BeginBlock` in between hands the same messages over once more; the buffer is
emptied by the next `BeginBlocker`, so that over two consecutive blocks of the
lifecycle each block's messages reach the sink exactly once. -/
theorem commit_flushes_without_discarding {σ : Type} (c : Collaborators σ) (w : World σ) :
    (Commit c w).2.PubMsgs = w.PubMsgs
    ∧ (Commit c w).2.sent = w.sent ++ w.PubMsgs.map (fun msg => (msg.Key, msg.Value))
    ∧ (Commit c (Commit c w).2).2.sent
        = w.sent ++ w.PubMsgs.map (fun msg => (msg.Key, msg.Value))
            ++ w.PubMsgs.map (fun msg => (msg.Key, msg.Value))
    ∧ (∀ (bb1 bb2 : RequestBeginBlock) (txs1 txs2 : List RequestDeliverTx)
        (eb1 eb2 : RequestEndBlock),
        (runBlock c (runBlock c w bb1 txs1 eb1) bb2 txs2 eb2).sent
          = w.sent ++ expectedPublication c w.base bb1 txs1 eb1
              ++ expectedPublication c (runBlock c w bb1 txs1 eb1).base bb2 txs2 eb2) := by
  refine ⟨rfl, Commit_sent c w, ?_, ?_⟩
  · rw [Commit_sent, Commit_sent, Commit_PubMsgs]
  · intro bb1 bb2 txs1 txs2 eb1 eb2
    rw [runBlock_sent, runBlock_sent]

/-- C8: whatever the buffer held before, after `BeginBlocker` it holds exactly
the messages of the allow-listed events of that begin-block call, in emission
order; every message in it comes from such an event, and two states that
differ only in the earlier buffer and sink log get the same buffer. -/
theorem begin_block_resets_buffer {σ : Type} (c : Collaborators σ) (w : World σ)
    (req : RequestBeginBlock) :
    (BeginBlocker c w req).2.PubMsgs
        = ((c.mmBeginBlock w.base req).1.Events.filter Event.onlyKafka).map Event.toPubMsg
    ∧ (∀ msg ∈ (BeginBlocker c w req).2.PubMsgs,
        ∃ e ∈ (c.mmBeginBlock w.base req).1.Events, e.onlyKafka = true ∧ msg = e.toPubMsg)
    ∧ (∀ (old : List PubMsg) (log : List (Bytes × Bytes)),
        (BeginBlocker c { base := w.base, PubMsgs := old, sent := log } req).2.PubMsgs
          = (BeginBlocker c w req).2.PubMsgs) := by
  refine ⟨BeginBlocker_PubMsgs c w req, fun msg hmsg => ?_, fun old log => ?_⟩
  · rw [BeginBlocker_PubMsgs, List.mem_map] at hmsg
    obtain ⟨e, he, rfl⟩ := hmsg
    rw [List.mem_filter] at he
    exact ⟨e, he.1, he.2, rfl⟩
  · rw [BeginBlocker_PubMsgs, BeginBlocker_PubMsgs]

/-- C9: the response of `CetChainApp.DeliverTx` is the response of
`BaseApp.DeliverTx` with the allow-listed events removed: code, data, log, info,
gas and codespace are unchanged and the events are the non-allow-listed events
of the underlying response in their original order, for zero and non-zero
result codes alike. -/
theorem deliver_tx_response_frame {σ : Type} (c : Collaborators σ) (w : World σ)
    (req : RequestDeliverTx) :
    (DeliverTx c w req).1.Code = (c.baseDeliverTx w.base req).1.Code
    ∧ (DeliverTx c w req).1.Data = (c.baseDeliverTx w.base req).1.Data
    ∧ (DeliverTx c w req).1.Log = (c.baseDeliverTx w.base req).1.Log
    ∧ (DeliverTx c w req).1.Info = (c.baseDeliverTx w.base req).1.Info
    ∧ (DeliverTx c w req).1.GasWanted = (c.baseDeliverTx w.base req).1.GasWanted
    ∧ (DeliverTx c w req).1.GasUsed = (c.baseDeliverTx w.base req).1.GasUsed
    ∧ (DeliverTx c w req).1.Codespace = (c.baseDeliverTx w.base req).1.Codespace
    ∧ (DeliverTx c w req).1.Events
        = (c.baseDeliverTx w.base req).1.Events.filter (fun e => !e.onlyKafka) := by
  rw [DeliverTx_response]
  exact ⟨rfl, rfl, rfl, rfl, rfl, rfl, rfl, rfl⟩

/-- C10: when the app state decodes and some basic module rejects its payload,
`initChainer` panics with the error of a rejecting module, whatever
`mm.InitGenesis` is (it is not run) and with the stores untouched; when every
module accepts its payload, `initChainer` is exactly `mm.InitGenesis` on the
decoded snapshot; when the app state does not decode, it panics before either.
This holds for every enumeration order of the module map. -/
theorem initChainer_validates_before_import {σ τ : Type}
    (MustUnmarshalJSON : Bytes → Except String (String → Bytes))
    (ModuleBasics : OrderedBasicManager τ)
    (range : List (String × AppModuleBasic τ)) (hrange : range.Perm ModuleBasics.BasicManager)
    (ctx : σ) (req : RequestInitChain) :
    (∀ genesisState : String → Bytes,
      MustUnmarshalJSON req.AppStateBytes = .ok genesisState →
      (∃ p ∈ ModuleBasics.BasicManager,
        p.2.ValidateGenesis (genesisState p.2.Name) ≠ none) →
      ∃ p ∈ ModuleBasics.BasicManager, ∃ err : String,
        p.2.ValidateGenesis (genesisState p.2.Name) = some err
        ∧ ∀ mmInitGenesis : σ → (String → Bytes) → Except String ResponseInitChain × σ,
            initChainer MustUnmarshalJSON mmInitGenesis range ctx req = (.error err, ctx))
    ∧ (∀ genesisState : String → Bytes,
        MustUnmarshalJSON req.AppStateBytes = .ok genesisState →
        (∀ p ∈ ModuleBasics.BasicManager,
          p.2.ValidateGenesis (genesisState p.2.Name) = none) →
        ∀ mmInitGenesis : σ → (String → Bytes) → Except String ResponseInitChain × σ,
          initChainer MustUnmarshalJSON mmInitGenesis range ctx req
            = mmInitGenesis ctx genesisState)
    ∧ (∀ e : String, MustUnmarshalJSON req.AppStateBytes = .error e →
        ∀ mmInitGenesis : σ → (String → Bytes) → Except String ResponseInitChain × σ,
          initChainer MustUnmarshalJSON mmInitGenesis range ctx req = (.error e, ctx)) := by
  refine ⟨?_, ?_, ?_⟩
  · rintro genesisState hjson ⟨p, hp, hne⟩
    cases hv : ValidateGenesis range genesisState with
    | none =>
      exact absurd ((ValidateGenesis_none_iff range genesisState).1 hv p (hrange.mem_iff.2 hp)) hne
    | some err =>
      obtain ⟨q, hq, hqv⟩ := ValidateGenesis_some range genesisState err hv
      refine ⟨q, hrange.mem_iff.1 hq, err, hqv, fun mmInitGenesis => ?_⟩
      simp only [initChainer, hjson, hv]
  · intro genesisState hjson hall mmInitGenesis
    have hv : ValidateGenesis range genesisState = none :=
      (ValidateGenesis_none_iff range genesisState).2
        (fun p hp => hall p (hrange.mem_iff.1 hp))
    simp only [initChainer, hjson, hv]
  · intro e hjson mmInitGenesis
    simp only [initChainer, hjson]

/-- Witness of C10: with one accepting and one rejecting module, `initChainer`
panics with the error of a rejecting module and leaves the stores (here `5`) as
they were, whatever `mm.InitGenesis` is. -/
theorem initChainer_validates_before_import_witness :
    (NewOrderedBasicManager [mockModuleBasic "a", rejectingModuleBasic "b" "bad genesis"]
        ).BasicManager.Perm
      (NewOrderedBasicManager [mockModuleBasic "a", rejectingModuleBasic "b" "bad genesis"]
        ).BasicManager
    ∧ ∃ p ∈ (NewOrderedBasicManager
          [mockModuleBasic "a", rejectingModuleBasic "b" "bad genesis"]).BasicManager,
        ∃ err : String, p.2.ValidateGenesis [] = some err
        ∧ ∀ mmInitGenesis : Nat → (String → Bytes) → Except String ResponseInitChain × Nat,
            initChainer (fun _ => .ok (fun _ => [])) mmInitGenesis
              (NewOrderedBasicManager
                [mockModuleBasic "a", rejectingModuleBasic "b" "bad genesis"]).BasicManager
              5 ⟨"chain", []⟩ = (.error err, 5) :=
  ⟨List.Perm.refl _,
   (initChainer_validates_before_import (fun _ => .ok (fun _ => []))
      (NewOrderedBasicManager [mockModuleBasic "a", rejectingModuleBasic "b" "bad genesis"])
      _ (List.Perm.refl _) (5 : Nat) ⟨"chain", []⟩).1 (fun _ => []) rfl
      ⟨("b", rejectingModuleBasic "b" "bad genesis"), List.mem_cons_self _ _,
        fun h => Option.noConfusion h⟩⟩

/-- C11, as stated, fails for a `BaseApp` that keeps the ante handler's writes:
the transaction returns code 4, yet the account and fee-collector stores
differ from what they were before the call. -/
theorem failing_tx_may_mutate_stores :
    (DeliverTx feeChargingCollaborators ⟨⟨10, 0⟩, [], []⟩ ⟨[4]⟩).1.Code ≠ CodeOK
    ∧ (DeliverTx feeChargingCollaborators ⟨⟨10, 0⟩, [], []⟩ ⟨[4]⟩).2.base
        = { account := 9, feeCollector := 1 }
    ∧ (DeliverTx feeChargingCollaborators ⟨⟨10, 0⟩, [], []⟩ ⟨[4]⟩).2.base
        ≠ { account := 10, feeCollector := 0 } := by
  decide

/-- C11, amended: the `DeliverTx` wrapper performs no store mutation of its own:
for every result code the stores after `CetChainApp.DeliverTx` are the stores
`BaseApp.DeliverTx` leaves, the result code is that of `BaseApp.DeliverTx`, and
so a transaction leaves every namespace unchanged exactly when
`BaseApp.DeliverTx` does; the same holds along a sequence of transactions. -/
theorem deliver_tx_wrapper_no_store_mutation {σ : Type} (c : Collaborators σ) (w : World σ)
    (req : RequestDeliverTx) :
    (DeliverTx c w req).2.base = (c.baseDeliverTx w.base req).2
    ∧ (DeliverTx c w req).1.Code = (c.baseDeliverTx w.base req).1.Code
    ∧ ((DeliverTx c w req).2.base = w.base ↔ (c.baseDeliverTx w.base req).2 = w.base)
    ∧ (∀ reqs : List RequestDeliverTx,
        (DeliverTxs c w reqs).2.base = (baseDeliverTxs c w.base reqs).2) := by
  refine ⟨DeliverTx_base c w req, ?_, ?_, fun reqs => DeliverTxs_base c w reqs⟩
  · rw [DeliverTx_response]
    rfl
  · rw [DeliverTx_base]

/-- C12: after `InitModules` the crisis module the manager runs at end-block
holds the keeper with every registered route, the authx route
`pre-total-supply` and the routes of the other modules included; with period
`N > 0` one `Manager.EndBlock` asserts that full set once when the height is a
multiple of `N` and not at all otherwise, so that every window of `N`
consecutive heights has exactly one height with a run; with `N = 0` there is
never a run. -/
theorem invariant_cadence (w : Wiring) (hinj : Function.Injective w.ModuleName)
    (inv : Pkg → List InvarRoute)
    (enum : List (String × AppModuleInv) → List (String × AppModuleInv))
    (henum : ∀ l, (enum l).Perm l) (N : Nat) :
    (InitModules.invariantWiring w inv enum N).mmModules.lookup (w.ModuleName .crisis)
        = some (crisis.NewAppModule w (InitModules.invariantWiring w inv enum N).crisisKeeper)
    ∧ ({ ModuleName := w.ModuleName .authx, Route := "pre-total-supply" } : InvarRoute)
        ∈ (InitModules.invariantWiring w inv enum N).crisisKeeper.routes
    ∧ (∀ p : Pkg, p ≠ Pkg.crisis → ∀ r ∈ inv p,
        r ∈ (InitModules.invariantWiring w inv enum N).crisisKeeper.routes)
    ∧ (∀ h : Nat, invariantRuns (InitModules.invariantWiring w inv enum N) h
        = if 0 < N ∧ h % N = 0 then
            [(InitModules.invariantWiring w inv enum N).crisisKeeper.routes]
          else [])
    ∧ (0 < N → ∀ a : Nat, ∃! h : Nat, a ≤ h ∧ h < a + N
        ∧ invariantRuns (InitModules.invariantWiring w inv enum N) h ≠ [])
    ∧ (N = 0 → ∀ h : Nat, invariantRuns (InitModules.invariantWiring w inv enum N) h = []) := by
  refine ⟨?_, ?_, ?_, fun h => invariantRuns_eq w hinj inv enum N h, ?_, ?_⟩
  · rw [invariantWiring_lookup w hinj]
    simp
  · rw [invariantWiring_crisisKeeper]
    simp
  · intro p hp r hr
    rw [invariantWiring_crisisKeeper]
    have hlook := lookup_initial_mmModules w hinj inv (crisis.NewKeeper N) p
    have hmem := mem_of_lookup_eq_some _ _ _ hlook
    have hmem2 := (henum _).mem_iff.2 hmem
    refine List.mem_append_right _ (List.mem_flatten.2 ⟨inv p, ?_, hr⟩)
    refine List.mem_map.2 ⟨_, hmem2, ?_⟩
    simp [InitModules.invModule, hp]
  · intro hN a
    obtain ⟨h, ⟨h1, h2, h3⟩, huniq⟩ := exists_unique_multiple_in_window N hN a
    refine ⟨h, ⟨h1, h2, ?_⟩, ?_⟩
    · rw [invariantRuns_eq w hinj, if_pos ⟨hN, h3⟩]
      exact List.cons_ne_nil _ _
    · rintro y ⟨hy1, hy2, hy3⟩
      apply huniq y
      refine ⟨hy1, hy2, ?_⟩
      rw [invariantRuns_eq w hinj] at hy3
      by_contra hmod
      exact hy3 (if_neg (fun hc => hmod hc.2))
  · intro hN h
    rw [invariantRuns_eq w hinj, if_neg (fun hc => by omega)]

/-- Witness of C12: with the sample module names and routes and period 3, the
end-block at height 6 asserts the three registered routes once and the
end-block at height 7 asserts nothing. -/
theorem invariant_cadence_witness :
    Function.Injective stdWiring.ModuleName
    ∧ (∀ l : List (String × AppModuleInv), (id l).Perm l)
    ∧ invariantRuns (InitModules.invariantWiring stdWiring sampleInvariants id 3) 6
        = [(InitModules.invariantWiring stdWiring sampleInvariants id 3).crisisKeeper.routes]
    ∧ invariantRuns (InitModules.invariantWiring stdWiring sampleInvariants id 3) 7 = [] :=
  ⟨stdWiring_injective, fun l => List.Perm.refl l,
   ((invariant_cadence stdWiring stdWiring_injective sampleInvariants id
      (fun l => List.Perm.refl l) 3).2.2.2.1 6).trans (if_pos (by decide)),
   ((invariant_cadence stdWiring stdWiring_injective sampleInvariants id
      (fun l => List.Perm.refl l) 3).2.2.2.1 7).trans (if_neg (by decide))⟩

/-- C13: each of the four phase orders installed by `InitModules` (begin-block,
end-block, genesis-init, genesis-export) contains only names of registered
modules and contains no name twice. -/
theorem phase_orders_registered_nodup (w : Wiring) (hinj : Function.Injective w.ModuleName) :
    ((∀ n ∈ (InitModules w).OrderBeginBlockers, n ∈ InitModules.registeredNames w)
      ∧ (InitModules w).OrderBeginBlockers.Nodup)
    ∧ ((∀ n ∈ (InitModules w).OrderEndBlockers, n ∈ InitModules.registeredNames w)
      ∧ (InitModules w).OrderEndBlockers.Nodup)
    ∧ ((∀ n ∈ (InitModules w).OrderInitGenesis, n ∈ InitModules.registeredNames w)
      ∧ (InitModules w).OrderInitGenesis.Nodup)
    ∧ ((∀ n ∈ (InitModules w).OrderExportGenesis, n ∈ InitModules.registeredNames w)
      ∧ (InitModules w).OrderExportGenesis.Nodup) := by
  refine ⟨⟨fun n hn => ?_, ?_⟩, ⟨fun n hn => ?_, ?_⟩, ⟨fun n hn => ?_, ?_⟩,
    ⟨fun n hn => ?_, ?_⟩⟩
  · rw [beginBlockers_eq_map] at hn
    exact mem_registeredNames_of_map w _ n hn
  · rw [beginBlockers_eq_map]
    exact (List.nodup_map_iff hinj).2 (by decide)
  · rw [endBlockers_eq_map] at hn
    exact mem_registeredNames_of_map w _ n hn
  · rw [endBlockers_eq_map]
    exact (List.nodup_map_iff hinj).2 (by decide)
  · rw [initGenesisOrder_eq_map] at hn
    exact mem_registeredNames_of_map w _ n hn
  · rw [initGenesisOrder_eq_map]
    exact (List.nodup_map_iff hinj).2 (by decide)
  · rw [exportGenesisOrder_eq_map] at hn
    exact mem_registeredNames_of_map w _ n hn
  · rw [exportGenesisOrder_eq_map]
    exact (List.nodup_map_iff hinj).2 (by decide)

/-- Witness of C13 at the module names of the deployed packages. -/
theorem phase_orders_registered_nodup_witness :
    Function.Injective stdWiring.ModuleName
    ∧ (InitModules stdWiring).OrderExportGenesis.Nodup
    ∧ (∀ n ∈ (InitModules stdWiring).OrderEndBlockers,
        n ∈ InitModules.registeredNames stdWiring) :=
  ⟨stdWiring_injective,
   (phase_orders_registered_nodup stdWiring stdWiring_injective).2.2.2.2,
   (phase_orders_registered_nodup stdWiring stdWiring_injective).2.1.1⟩

/-- C14: `registerRoutesWithOrder` walks the module list once, in list order:
the router receives one `AddRoute` call for each module with a non-empty
`Route()`, in list order and with that module's route and handler, the query
router one call for each module with a non-empty `QuerierRoute()`; a module
with an empty route adds nothing.  On routers that record their calls the
recorded sequences are exactly those routes. -/
theorem registerRoutesWithOrder_in_list_order {ρ κ : Type}
    (routerAddRoute : ρ → String → AppModule → ρ)
    (queryAddRoute : κ → String → AppModule → κ) (modules : List AppModule)
    (router : ρ) (queryRouter : κ) :
    registerRoutesWithOrder routerAddRoute queryAddRoute modules router queryRouter
        = ((modules.filter (fun m => decide (m.Route ≠ ""))).foldl
              (fun r m => routerAddRoute r m.Route m) router,
           (modules.filter (fun m => decide (m.QuerierRoute ≠ ""))).foldl
              (fun q m => queryAddRoute q m.QuerierRoute m) queryRouter)
    ∧ registerRoutesWithOrder recordAddRoute recordAddRoute modules [] []
        = ((modules.filter (fun m => decide (m.Route ≠ ""))).map (fun m => (m.Route, m.Name)),
           (modules.filter (fun m => decide (m.QuerierRoute ≠ ""))).map
              (fun m => (m.QuerierRoute, m.Name))) := by
  refine ⟨registerRoutes_foldl_eq _ _ _ _ _, ?_⟩
  rw [registerRoutes_foldl_eq, recordAddRoute_foldl (fun m => m.Route),
    recordAddRoute_foldl (fun m => m.QuerierRoute)]
  simp

/-- C15: for bankx, export undoes import: with a keeper whose `GetParam`
returns what `SetParam` stored last, `ExportGenesis` after `InitGenesis` of a
genesis state returns that genesis state. -/
theorem bankx_export_after_init {σ ε : Type} (keeper : bankx.Keeper σ ε)
    (hget : ∀ (ctx : σ) (p : bankx.Params ε), keeper.GetParam (keeper.SetParam ctx p) = p)
    (ctx : σ) (d : bankx.GenesisState ε) :
    bankx.ExportGenesis (bankx.InitGenesis ctx keeper d) keeper = d := by
  simp only [bankx.ExportGenesis, bankx.InitGenesis, bankx.NewGenesisState, hget]

/-- Witness of C15: the keeper whose store is the parameter cell. -/
theorem bankx_export_after_init_witness :
    (∀ (ctx : bankx.Params Unit) (p : bankx.Params Unit),
        bankx.cellKeeper.GetParam (bankx.cellKeeper.SetParam ctx p) = p)
    ∧ bankx.ExportGenesis
        (bankx.InitGenesis ⟨0, 0, ()⟩ bankx.cellKeeper ⟨⟨100000000, 2000000, ()⟩⟩)
        bankx.cellKeeper
      = ⟨⟨100000000, 2000000, ()⟩⟩ :=
  ⟨fun _ _ => rfl, bankx_export_after_init bankx.cellKeeper (fun _ _ => rfl) _ _⟩

/-- C16: bankx `ValidateGenesis` returns `nil` exactly when both fees are
non-negative; a negative activation fee gives the error with code
`CodeInvalidActivationFee` whatever the lock-coins fee is, and a non-negative
activation fee with a negative lock-coins fee gives the error with code
`CodeInvalidLockCoinsFee`. -/
theorem bankx_validate_genesis {ε : Type} (codes : bankx.Codes) (data : bankx.GenesisState ε) :
    (data.ValidateGenesis codes = none
        ↔ 0 ≤ data.Param.ActivationFee ∧ 0 ≤ data.Param.LockCoinsFee)
    ∧ (data.Param.ActivationFee < 0 →
        data.ValidateGenesis codes
          = some { Codespace := codes.CodeSpaceBankx, Code := codes.CodeInvalidActivationFee,
                   Msg := "invalid activated fees" })
    ∧ (0 ≤ data.Param.ActivationFee → data.Param.LockCoinsFee < 0 →
        data.ValidateGenesis codes
          = some { Codespace := codes.CodeSpaceBankx, Code := codes.CodeInvalidLockCoinsFee,
                   Msg := "invalid lock coins fee" }) := by
  unfold bankx.GenesisState.ValidateGenesis
  refine ⟨?_, fun h => ?_, fun h1 h2 => ?_⟩
  · by_cases h1 : data.Param.ActivationFee < 0
    · simp only [h1, if_true]
      constructor
      · intro h; cases h
      · intro h; omega
    · by_cases h2 : data.Param.LockCoinsFee < 0
      · simp only [h1, h2, if_true, if_false]
        constructor
        · intro h; cases h
        · intro h; omega
      · simp only [h1, h2, if_false, true_iff]
        omega
  · simp only [h, if_true]
  · have h3 : ¬ data.Param.ActivationFee < 0 := by omega
    simp only [h3, h2, if_true, if_false]

/-- C17: in the begin-block order installed by `InitModules` the distribution
module comes before the slashing module (positions 2 and 3), and the begin-block
hooks the manager runs are those of market, incentive, distr and slashing in
this order, so slashing's hook runs after distribution's. -/
theorem distr_before_slashing (w : Wiring) (hinj : Function.Injective w.ModuleName) :
    (InitModules w).OrderBeginBlockers.indexOf (w.ModuleName .distr) = 2
    ∧ (InitModules w).OrderBeginBlockers.indexOf (w.ModuleName .slashing) = 3
    ∧ (InitModules w).OrderBeginBlockers
        = [w.ModuleName .market, w.ModuleName .incentive, w.ModuleName .distr,
           w.ModuleName .slashing]
    ∧ (InitModules w).beginBlockRuns
        = [NewAppModule w .market, NewAppModule w .incentive, NewAppModule w .distr,
           NewAppModule w .slashing] := by
  have hord : (InitModules w).OrderBeginBlockers
      = [w.ModuleName .market, w.ModuleName .incentive, w.ModuleName .distr,
         w.ModuleName .slashing] := rfl
  refine ⟨?_, ?_, hord, ?_⟩
  · rw [hord]
    simp [List.indexOf_cons, hinj.eq_iff]
  · rw [hord]
    simp [List.indexOf_cons, hinj.eq_iff]
  · unfold Manager.beginBlockRuns
    rw [hord]
    simp only [List.filterMap_cons, List.filterMap_nil, lookup_InitModules w hinj]

/-- Witness of C17 at the module names of the deployed packages. -/
theorem distr_before_slashing_witness :
    Function.Injective stdWiring.ModuleName
    ∧ (InitModules stdWiring).OrderBeginBlockers.indexOf "distribution" = 2
    ∧ (InitModules stdWiring).OrderBeginBlockers.indexOf "slashing" = 3 :=
  ⟨stdWiring_injective,
   (distr_before_slashing stdWiring stdWiring_injective).1,
   (distr_before_slashing stdWiring stdWiring_injective).2.1⟩

/-- C18: in the genesis-init order installed by `InitModules`, genutil is the
last entry (position 16 of 17) and occurs nowhere else, genaccounts is at
position 0 and staking at position 2, both before genutil. -/
theorem genutil_last_in_genesis_order (w : Wiring) (hinj : Function.Injective w.ModuleName) :
    (InitModules w).OrderInitGenesis.getLast? = some (w.ModuleName .genutil)
    ∧ (InitModules w).OrderInitGenesis.length = 17
    ∧ (InitModules w).OrderInitGenesis.indexOf (w.ModuleName .genutil) = 16
    ∧ (InitModules w).OrderInitGenesis.indexOf (w.ModuleName .genaccounts) = 0
    ∧ (InitModules w).OrderInitGenesis.indexOf (w.ModuleName .staking) = 2
    ∧ (InitModules w).OrderInitGenesis.count (w.ModuleName .genutil) = 1 := by
  have hord : (InitModules w).OrderInitGenesis
      = [w.ModuleName .genaccounts, w.ModuleName .distr, w.ModuleName .staking,
         w.ModuleName .auth, w.ModuleName .bank, w.ModuleName .slashing, w.ModuleName .gov,
         w.ModuleName .supply, w.ModuleName .authx, w.ModuleName .bankx,
         w.ModuleName .incentive, w.ModuleName .stakingx, w.ModuleName .asset,
         w.ModuleName .market, w.ModuleName .bancorlite, w.ModuleName .crisis,
         w.ModuleName .genutil] := rfl
  refine ⟨?_, ?_, ?_, ?_, ?_, ?_⟩
  · rw [hord]; rfl
  · rw [hord]; rfl
  · rw [hord]
    simp [List.indexOf_cons, hinj.eq_iff]
  · rw [hord]
    simp [List.indexOf_cons]
  · rw [hord]
    simp [List.indexOf_cons, hinj.eq_iff]
  · rw [hord]
    simp [List.count_cons, hinj.eq_iff]

/-- Witness of C18 at the module names of the deployed packages. -/
theorem genutil_last_in_genesis_order_witness :
    Function.Injective stdWiring.ModuleName
    ∧ (InitModules stdWiring).OrderInitGenesis.getLast? = some "genutil"
    ∧ (InitModules stdWiring).OrderInitGenesis.indexOf "staking" = 2 :=
  ⟨stdWiring_injective,
   (genutil_last_in_genesis_order stdWiring stdWiring_injective).1,
   (genutil_last_in_genesis_order stdWiring stdWiring_injective).2.2.2.2.1⟩

/-- C19, evaluated where it fails: from 192.168.0.255 the address of node 1 is
computed as 192.168.0.0, the last byte wrapping without a carry, where the
starting address plus one is 192.168.1.0; without wrap-around the documented
example holds, 192.168.0.1 giving 192.168.0.2 for node 1. -/
theorem calculateIP_wraps_last_byte :
    calculateIP parseDottedQuad "192.168.0.255" 1 = ("192.168.0.0", none)
    ∧ calculateIP parseDottedQuad "192.168.0.255" 1 ≠ ("192.168.1.0", none)
    ∧ calculateIP parseDottedQuad "192.168.0.1" 0 = ("192.168.0.1", none)
    ∧ calculateIP parseDottedQuad "192.168.0.1" 1 = ("192.168.0.2", none) := by
  decide

/-- C21, as stated, fails for an account whose first coin is negative: the
coins are non-empty and the sum (-1) is within `int64`, yet with the largest
`int64` as supply the difference wraps to a negative number and the function
panics in `sdk.NewCoin` instead of returning a list that sums to the supply. -/
theorem assureTokenDistribution_negative_coin :
    (∀ acc ∈ [({ Address := [2], Coins := [⟨"cet", -1⟩], rest := () } : GenesisAccount Unit)],
        acc.Coins ≠ [])
    ∧ sumFirstCoins [({ Address := [2], Coins := [⟨"cet", -1⟩], rest := () } : GenesisAccount Unit)]
        = -1
    ∧ wrapInt64 (maxInt64 - -1) = minInt64
    ∧ assureTokenDistributionInGenesis "cet" [1] ()
        [{ Address := [2], Coins := [⟨"cet", -1⟩], rest := () }] maxInt64
        = .error "negative coin amount" := by
  refine ⟨by decide, by decide, by decide, rfl⟩

/-- C21, amended: for accounts that each have a first coin whose amount is an
`int64`, with the sum of these amounts within `int64`, and a supply `s` such
that `s - sum` does not overflow `int64` either,
`assureTokenDistributionInGenesis` returns a list that has the input as a
prefix, has at most one extra account, and whose first-coin amounts sum to the
larger of the input sum and the supply; the sum is the supply whenever the
input sum is at most the supply, the list is returned unchanged whenever the
input sum is at least the supply, and otherwise the one extra account holds the
difference.  Partial sums may wrap on the way; amounts may be negative. -/
theorem assureTokenDistribution_total {ε : Type} (DefaultBondDenom : String)
    (leftTokensAddress : Bytes) (zeroRest : ε) (accs : List (GenesisAccount ε)) (s : Int)
    (hcoins : ∀ acc ∈ accs, acc.Coins ≠ [])
    (hamt : ∀ acc ∈ accs, minInt64 ≤ firstCoinAmount acc ∧ firstCoinAmount acc ≤ maxInt64)
    (hsum : minInt64 ≤ sumFirstCoins accs ∧ sumFirstCoins accs ≤ maxInt64)
    (hdiff : s - sumFirstCoins accs ≤ maxInt64) :
    ∃ out : List (GenesisAccount ε),
      assureTokenDistributionInGenesis DefaultBondDenom leftTokensAddress zeroRest accs s
        = .ok out
      ∧ accs <+: out
      ∧ out.length ≤ accs.length + 1
      ∧ sumFirstCoins out = max (sumFirstCoins accs) s
      ∧ (sumFirstCoins accs ≤ s → sumFirstCoins out = s)
      ∧ (s ≤ sumFirstCoins accs → out = accs)
      ∧ (sumFirstCoins accs < s →
          out = accs ++ [{ Address := leftTokensAddress,
                           Coins := [{ Denom := DefaultBondDenom,
                                       Amount := s - sumFirstCoins accs }],
                           rest := zeroRest }]) := by
  have hzero : minInt64 ≤ (0 : Int) ∧ (0 : Int) ≤ maxInt64 := by
    unfold minInt64 maxInt64
    omega
  have hloop := sumDistributedTokens_wrap accs 0 hcoins hamt hzero
  rw [Int.zero_add, wrapInt64_eq_self _ hsum.1 hsum.2] at hloop
  by_cases hgt : s > sumFirstCoins accs
  · have hwrap : wrapInt64 (s - sumFirstCoins accs) = s - sumFirstCoins accs :=
      wrapInt64_eq_self _ (by unfold minInt64; omega) hdiff
    have hpos : ¬ s - sumFirstCoins accs < 0 := by omega
    refine ⟨accs ++ [{ Address := leftTokensAddress,
                       Coins := [{ Denom := DefaultBondDenom,
                                   Amount := s - sumFirstCoins accs }],
                       rest := zeroRest }], ?_, ?_, ?_, ?_, ?_, ?_, ?_⟩
    · simp only [assureTokenDistributionInGenesis, hloop, hgt, if_true, hwrap, NewCoin, hpos,
        if_false]
    · exact List.prefix_append _ _
    · simp
    · rw [sumFirstCoins_append_singleton]
      simp only [firstCoinAmount]
      rw [max_eq_right (by omega)]
      omega
    · intro _
      rw [sumFirstCoins_append_singleton]
      simp only [firstCoinAmount]
      omega
    · intro hle
      omega
    · intro _
      rfl
  · refine ⟨accs, ?_, List.prefix_refl _, by omega, ?_, ?_, fun _ => rfl, ?_⟩
    · simp only [assureTokenDistributionInGenesis, hloop, hgt, if_false]
    · rw [max_eq_left (by omega)]
    · intro hle
      omega
    · intro hlt
      omega

/-- Witness of the amended C21: one account holding -1 and a supply of 5 give a
second account holding 6, the two summing to the supply. -/
theorem assureTokenDistribution_total_witness :
    (∀ acc ∈ [({ Address := [2], Coins := [⟨"cet", -1⟩], rest := () } : GenesisAccount Unit)],
        acc.Coins ≠ [])
    ∧ (5 : Int) - sumFirstCoins
        [({ Address := [2], Coins := [⟨"cet", -1⟩], rest := () } : GenesisAccount Unit)]
        ≤ maxInt64
    ∧ ∃ out : List (GenesisAccount Unit),
        assureTokenDistributionInGenesis "cet" [1] ()
          [{ Address := [2], Coins := [⟨"cet", -1⟩], rest := () }] 5 = .ok out
        ∧ out = [{ Address := [2], Coins := [⟨"cet", -1⟩], rest := () },
                 { Address := [1], Coins := [⟨"cet", 6⟩], rest := () }]
        ∧ sumFirstCoins out = 5 :=
  ⟨by decide, by decide,
   (assureTokenDistribution_total "cet" [1] ()
      [{ Address := [2], Coins := [⟨"cet", -1⟩], rest := () }] 5
      (by decide) (by decide) (by decide) (by decide)).imp
      (fun _ h => ⟨h.1, h.2.2.2.2.2.2 (by decide), h.2.2.2.2.1 (by decide)⟩)⟩

/-- C22: `calculateIP` changes only the last byte and wraps it without carry:
when the input parses to the four bytes a, b, c, d and `i ≥ 0`, it returns the
dotted form of a, b, c, (d + i) mod 256 and no error; it returns an error
exactly when the input does not parse, and then the string is empty. -/
theorem calculateIP_last_byte_mod (ParseIPTo4 : String → Option IPv4) (ip : String) (i : Int)
    (hi : 0 ≤ i) :
    ((i.toNat : Int) = i)
    ∧ (∀ v : IPv4, ParseIPTo4 ip = some v → v.b3 < 256 →
        calculateIP ParseIPTo4 ip i
          = (IPv4.String { b0 := v.b0, b1 := v.b1, b2 := v.b2, b3 := (v.b3 + i.toNat) % 256 },
             none))
    ∧ (ParseIPTo4 ip = none →
        calculateIP ParseIPTo4 ip i = ("", some (ip ++ ": non ipv4 address")))
    ∧ ((calculateIP ParseIPTo4 ip i).2 ≠ none ↔ ParseIPTo4 ip = none) := by
  refine ⟨Int.toNat_of_nonneg hi, fun v hv hb => ?_, fun hnone => ?_, ?_⟩
  · simp only [calculateIP, hv, lastByte_loop _ v hb, List.length_range]
  · simp only [calculateIP, hnone]
  · cases hp : ParseIPTo4 ip with
    | none => simp [calculateIP, hp]
    | some v => simp [calculateIP, hp]

/-- Witness of C22: from 192.168.0.250 node 10 gets 192.168.0.4. -/
theorem calculateIP_last_byte_mod_witness :
    (0 : Int) ≤ 10
    ∧ calculateIP parseDottedQuad "192.168.0.250" 10 = ("192.168.0.4", none)
    ∧ ((calculateIP parseDottedQuad "192.168.0.256" 10).2 ≠ none
        ↔ parseDottedQuad "192.168.0.256" = none) :=
  ⟨by decide,
   ((calculateIP_last_byte_mod parseDottedQuad "192.168.0.250" 10 (by decide)).2.1
      ⟨192, 168, 0, 250⟩ (by decide) (by decide)).trans (by decide),
   (calculateIP_last_byte_mod parseDottedQuad "192.168.0.256" 10 (by decide)).2.2.2⟩

end CetSdk
